import Mathlib

/-!
Shallow embedding of the QDataServer plugin-loader core, translated from the
C++ sources:

* `Utils.DependencyGraph` (generic topological sort kernel),
* `Utils.Configuration` (resource/version predicate language),
* `PluginLoader.PluginSpec` / `PluginLoader.PluginManagerPrivate`
  (plugin specification state machine, dependency resolver, manager loop).

Machine integers are modelled as `Nat`/`Int` (no overflow is reachable in the
modelled code paths), Qt containers as `List`, and external services
(filesystem, `QXmlStreamReader` tokenisation, `QPluginLoader`, plugin
callbacks) as explicit inputs.  `Q_ASSERT` is a debug-build no-op in the
source, so the definitions follow the release-build control flow.
-/

/-- `QString::split(QChar sep)` with the default `KeepEmptyParts` behaviour,
on the underlying character list: `"a..b"` splits into `a`, an empty part,
and `b`; the empty string splits into one empty part. -/
def splitChars (sep : Char) : List Char → List (List Char)
  | [] => [[]]
  | c :: rest =>
    let r := splitChars sep rest
    if c == sep then [] :: r
    else
      match r with
      | [] => [[c]]
      | g :: gs => (c :: g) :: gs

/-- `QString::split(QChar sep)`. -/
def qsplit (s : String) (sep : Char) : List String :=
  (splitChars sep s.data).map String.mk

/-- `QString::isEmpty`. -/
def qIsEmpty (s : String) : Bool :=
  s.data.isEmpty

/-- The numeric value of a decimal digit string. -/
def charsToNat (cs : List Char) : Nat :=
  cs.foldl (fun acc c => acc * 10 + (c.toNat - 48)) 0

/-- A non-empty all-digits string (used for the version format checks). -/
def allDigits (s : String) : Bool :=
  !s.data.isEmpty && s.data.all Char.isDigit

/-- `QString::toInt` at the modelled call sites: the call sites only ever
see non-negative decimal components; `toInt` parses into a 32-bit `int`
and yields 0 when the string is not a valid number or its value does not
fit, i.e. exceeds `INT_MAX = 2147483647`. -/
def qToInt (s : String) : Nat :=
  if allDigits s ∧ charsToNat s.data ≤ 2147483647 then charsToNat s.data else 0

/-- `QString::trimmed`: strip leading and trailing whitespace. -/
def qTrim (s : String) : String :=
  String.mk (((s.data.dropWhile Char.isWhitespace).reverse.dropWhile Char.isWhitespace).reverse)

namespace Utils

/-- One cell of the `DependencyGraph` edge matrix.  The C++ class stores edges
in `QVector<QBitArray> m_edges` where `m_edges[dependent].testBit(required)`
holds exactly for the pairs passed to `addEdge` (after index translation via
`m_nodes.indexOf`); we represent the matrix by the list of set bits. -/
def DependencyGraph.hasEdge (edges : List (Nat × Nat)) (dependentNodeIdx requiredNodeIdx : Nat) : Bool :=
  decide ((dependentNodeIdx, requiredNodeIdx) ∈ edges)

/-- `true` when `nodeNumber` has no outgoing edge into any node of
`remaining`; this is the `independent` scan of `DependencyGraph::sort`
(the inner `foreach` with `break`). -/
def DependencyGraph.independent (edges : List (Nat × Nat)) (remaining : List Nat) (nodeNumber : Nat) : Bool :=
  remaining.all fun node2Number => !DependencyGraph.hasEdge edges nodeNumber node2Number

/-- The body of the `while (true)` loop of `DependencyGraph::sort`,
structurally recursive on a step counter: find the first remaining node (in
the order fixed by the tie-break policy) with no outgoing edge into a
remaining node, emit it and remove it.  Returns the emitted sequence
(`m_cache`) together with the nodes left over when no independent node
exists any more.  Each iteration removes one node, so `remaining.length`
steps always suffice (see `sortLoop`). -/
def DependencyGraph.sortLoopAux (edges : List (Nat × Nat)) : Nat → List Nat → List Nat × List Nat
  | 0, remaining => ([], remaining)
  | n + 1, remaining =>
    match remaining.find? (DependencyGraph.independent edges remaining) with
    | none => ([], remaining)
    | some m =>
      let rest := DependencyGraph.sortLoopAux edges n (remaining.erase m)
      (m :: rest.1, rest.2)

/-- The `while (true)` loop of `DependencyGraph::sort`.  The source then
asserts that the leftover list is empty
("Circular dependency detected!"). -/
def DependencyGraph.sortLoop (edges : List (Nat × Nat)) (remaining : List Nat) : List Nat × List Nat :=
  DependencyGraph.sortLoopAux edges remaining.length remaining

/-- The sort kernel.  `m_nodes` is the node list in insertion order (`addNode`
appends and requires the node to be new); `m_edges` holds the index pairs
recorded by `addEdge(dependentNode, requiredNode)`. -/
structure DependencyGraph (T : Type) where
  m_nodes : List T
  m_edges : List (Nat × Nat)

/-- `DependencyGraph::sort` parameterised by the initial ordering of the node
numbers.  The `sortIndependent = false` instantiation uses insertion order
(`List.range`), `sortIndependent = true` uses the node numbers sorted by node
value, and the `Fifo`/`Lifo`/`Striped` wrappers produce further initial
orderings of a slave graph; all of them run this same loop.  The first
component is the returned `QList<T>` (`m_cache`), the second the leftover
node numbers (empty iff the sort completed without the cycle assertion). -/
def DependencyGraph.sortFrom {T : Type} [Inhabited T] (g : DependencyGraph T) (order : List Nat) : List T × List Nat :=
  let r := DependencyGraph.sortLoop g.m_edges order
  (r.1.map fun i => g.m_nodes.getD i default, r.2)

/-- `DependencyGraph::sort` with the natural (`sortIndependent = false`)
tie-break policy: node numbers are scanned in insertion order. -/
def DependencyGraph.sort {T : Type} [Inhabited T] (g : DependencyGraph T) : List T × List Nat :=
  g.sortFrom (List.range g.m_nodes.length)

/-- `Utils::Configuration::Type` restricted to the relational operators
`Lt .. Gt`; the tree-building variants (`Not`, `Comma`, `And`, `Or`,
`Exists`) are the constructors of `Configuration` below. -/
inductive RelOp where
  | Lt
  | Le
  | Eq
  | Ne
  | Ge
  | Gt
deriving DecidableEq

/-- `Utils::Configuration`: a persistent immutable expression tree.
Resources are `UniqueId` values, an interned integer per distinct string;
we model them directly as `Nat`.  Versions are their specification
strings. -/
inductive Configuration where
  | NotC (right : Configuration)
  | Comma (left right : Configuration)
  | AndC (left right : Configuration)
  | OrC (left right : Configuration)
  | ExistsR (resource : Nat)
  | Rel (resource : Nat) (relation : RelOp) (version : String)
deriving DecidableEq

/-- The `for (int i = 0; i < minCount; i++)` loop of
`Configuration::defaultVersionCompareFunction` together with the final
`sv1.count() - sv2.count()`: compare parallel components numerically and
return the first non-zero difference, otherwise the difference of the
component counts.  `QString::toInt` yields 0 for a non-numeric component
(the format `Q_ASSERT` is a debug-build check only). -/
def Configuration.vcmpLoop : List String → List String → Int
  | a :: as, b :: bs =>
    let cmp : Int := ((qToInt a : Nat) : Int) - ((qToInt b : Nat) : Int)
    if cmp ≠ 0 then cmp else Configuration.vcmpLoop as bs
  | as, bs => ((as.length : Nat) : Int) - ((bs.length : Nat) : Int)

/-- `Configuration::defaultVersionCompareFunction`: split both versions on
dots and compare component-wise. -/
def Configuration.defaultVersionCompareFunction (v1 v2 : String) : Int :=
  Configuration.vcmpLoop (qsplit v1 '.') (qsplit v2 '.')

/-- `Configuration::Data::versionCompareFunctions.value(resource, default)`:
the write-once registry mapping a resource to its comparison function,
modelled as an association list (the registry is mutated only by
`registerVersionCompareFunction`, which inserts a new key). -/
def Configuration.versionCompare (registry : List (Nat × (String → String → Int))) (resource : Nat) :
    String → String → Int :=
  match registry.find? (fun e => e.1 == resource) with
  | some e => e.2
  | none => Configuration.defaultVersionCompareFunction

/-- `Configuration::Data::satisfiesVersion`: compare this (provided) version
against the required one with the registered or default comparator and test
the relation.  `relation` is always one of `Lt .. Gt` at call sites. -/
def Configuration.satisfiesVersion (registry : List (Nat × (String → String → Int)))
    (resource : Nat) (providedVersion : String) (relation : RelOp) (requiredVersion : String) : Bool :=
  let cmp := Configuration.versionCompare registry resource providedVersion requiredVersion
  match relation with
  | .Lt => decide (cmp < 0)
  | .Le => decide (cmp ≤ 0)
  | .Eq => decide (cmp = 0)
  | .Ne => decide (cmp ≠ 0)
  | .Ge => decide (cmp ≥ 0)
  | .Gt => decide (cmp > 0)

/-- The provided-side recursion of `Configuration::satisfies` for a required
`Exists` leaf (`case Exists:` of the outer switch): a provided `Comma`
delegates to either child, a provided `Exists` or `Eq` leaf compares
resources, and any other provided shape is a programmer error
(`Q_ASSERT_X(false, ...)`), modelled as `none`. -/
def Configuration.satisfiesExists : Configuration → Nat → Option Bool
  | .Comma l r, res =>
    match Configuration.satisfiesExists l res with
    | none => none
    | some true => some true
    | some false => Configuration.satisfiesExists r res
  | .ExistsR res2, res => some (res2 == res)
  | .Rel res2 .Eq _, res => some (res2 == res)
  | _, _ => none

/-- The provided-side recursion of `Configuration::satisfies` for a required
relational leaf (`case Lt: ... case Gt:`): a provided `Comma` delegates to
either child; a provided `Exists` leaf yields `false` (with a
"version not specified" warning when the resources match); a provided `Eq`
leaf compares resources and versions; anything else is a programmer error
(`none`). -/
def Configuration.satisfiesRel (registry : List (Nat × (String → String → Int))) :
    Configuration → Nat → RelOp → String → Option Bool
  | .Comma l r, res, op, ver =>
    match Configuration.satisfiesRel registry l res op ver with
    | none => none
    | some true => some true
    | some false => Configuration.satisfiesRel registry r res op ver
  | .ExistsR _, _, _, _ => some false
  | .Rel res2 .Eq ver2, res, op, ver =>
    some (res2 == res && Configuration.satisfiesVersion registry res2 ver2 op ver)
  | _, _, _, _ => none

/-- `Configuration::satisfies(requiredConfiguration)`: recursion on the
required expression (the outer `switch (requiredConfiguration.type())`),
with the C++ short-circuiting `&&` and `||`. -/
def Configuration.satisfies (registry : List (Nat × (String → String → Int)))
    (provided : Configuration) : Configuration → Option Bool
  | .NotC r => (Configuration.satisfies registry provided r).map fun b => !b
  | .Comma l r =>
    match Configuration.satisfies registry provided l with
    | none => none
    | some false => some false
    | some true => Configuration.satisfies registry provided r
  | .AndC l r =>
    match Configuration.satisfies registry provided l with
    | none => none
    | some false => some false
    | some true => Configuration.satisfies registry provided r
  | .OrC l r =>
    match Configuration.satisfies registry provided l with
    | none => none
    | some true => some true
    | some false => Configuration.satisfies registry provided r
  | .ExistsR res => Configuration.satisfiesExists provided res
  | .Rel res op ver => Configuration.satisfiesRel registry provided res op ver

/-- The version-string format accepted by
`Configuration::defaultVersionCompareFunction`, i.e. the regular expression
`[0-9]+(\.[0-9]+)*`: one or more non-empty all-digit components separated by
dots. -/
def matchesDefaultVersionFormat (v : String) : Bool :=
  (qsplit v '.').all allDigits

/-- The numeric components of a dot-separated version string, the view under
which the specification describes the default comparison: the exact
(unbounded) numeral of each component, not the `int`-clamped value the code
computes. -/
def versionComponents (v : String) : List Nat :=
  (qsplit v '.').map (fun s => charsToNat s.data)

/-- The default version comparison as the specification words it, stated on
the numeric component lists and normalised to `-1`/`0`/`1`; written from the
spec ("compares the dot-separated components as integers left to right, with
the shorter string being less when the two are equal on the shared prefix")
for comparison against `Configuration.defaultVersionCompareFunction`. -/
def specVersionCompare : List Nat → List Nat → Int
  | [], [] => 0
  | [], _ :: _ => -1
  | _ :: _, [] => 1
  | a :: as, b :: bs =>
    if a < b then -1
    else if b < a then 1
    else specVersionCompare as bs

end Utils

namespace PluginLoader

/-- `PluginSpec::State`: the loading state machine
`Invalid → Read → Resolved → Loaded → Initialized`. -/
inductive PState where
  | Invalid
  | Read
  | Resolved
  | Loaded
  | Initialized
deriving DecidableEq

/-- Numeric value of a state, for the `<`/`>=` comparisons the source
performs on the `State` enum. -/
def PState.toNat : PState → Nat
  | .Invalid => 0
  | .Read => 1
  | .Resolved => 2
  | .Loaded => 3
  | .Initialized => 4

/-- `PluginLoader::PluginDependency`: one `dependency` entry of the
description file. -/
structure PluginDependency where
  name : String
  version : String
deriving DecidableEq

/-- The merged fields of `PluginSpec` / `PluginSpecPrivate`.  Specs live in a
single owning collection (the manager's); the non-owning `PluginSpec *`
edges `dependencySpecs` / `providesSpecs` are modelled as indices into that
collection.  `plugin` records whether the `IPlugin *` member is non-null.
The defaults are the `PluginSpecPrivate` constructor initialisers. -/
structure PluginSpec where
  name : String := ""
  version : String := ""
  description : String := ""
  category : String := ""
  dependencies : List PluginDependency := []
  filePath : String := ""
  fileName : String := ""
  enabled : Bool := false
  persistent : Bool := false
  indirectlyDisabled : Bool := false
  initializationFailed : Bool := false
  circularDependencyDetected : Bool := false
  dependencySpecs : List Nat := []
  providesSpecs : List Nat := []
  plugin : Bool := false
  state : PState := .Invalid
  hasError : Bool := false
  errorString : String := ""
deriving DecidableEq

instance : Inhabited PluginSpec := ⟨{}⟩

/-- Dereference a spec index in the owning collection (a `PluginSpec *`). -/
def getSpec (world : List PluginSpec) (i : Nat) : PluginSpec :=
  world.getD i default

/-- Mutate the spec at index `i` in place. -/
def updateSpec (world : List PluginSpec) (i : Nat) (f : PluginSpec → PluginSpec) : List PluginSpec :=
  world.set i (f (getSpec world i))

/-- `PluginSpecPrivate::reportError`: append to the newline-joined error
string and set `hasError` (the C++ function always returns `false`). -/
def PluginSpec.reportError (s : PluginSpec) (err : String) : PluginSpec :=
  { s with
    errorString := if qIsEmpty s.errorString then err else s.errorString ++ "\n" ++ err,
    hasError := true }

/-- `PluginSpec::isEnabled`: `enabled || persistent`. -/
def PluginSpec.isEnabled (s : PluginSpec) : Bool :=
  s.enabled || s.persistent

/-- `PluginSpec::setEnabled`: a no-op when the spec is persistent and the
request is to disable. -/
def PluginSpec.setEnabled (s : PluginSpec) (enabled : Bool) : PluginSpec :=
  if s.persistent && !enabled then s else { s with enabled := enabled }

/-- `PluginSpecPrivate::isValidVersion`: exact match against
`([0-9]+)(?:[.]([0-9]+))?(?:[.]([0-9]+))?(?:_([0-9]+))?` — one to three
dot-separated numeric components, optionally followed by an underscore and
a numeric build component. -/
def isValidVersion (version : String) : Bool :=
  let dotted : Option String :=
    match qsplit version '_' with
    | [m] => some m
    | [m, d] => if allDigits d then some m else none
    | _ => none
  match dotted with
  | none => false
  | some m =>
    let parts := qsplit m '.'
    decide (parts.length ≤ 3) && parts.all allDigits

/-- One `QXmlStreamReader` token, the external input of the parser in
`PluginSpecPrivate::read`.  Tokenisation itself is Qt's concern; the spec
reader only inspects start elements (name and attributes), end elements and
character data. -/
inductive XmlToken where
  | startElement (name : String) (attributes : List (String × String))
  | endElement
  | characters (text : String)
  | comment
deriving DecidableEq

/-- `QXmlStreamAttributes::value(...).toString()`: the attribute value, or
the empty string when the attribute is absent. -/
def attrValue (attributes : List (String × String)) (key : String) : String :=
  match attributes.find? (fun a => a.1 == key) with
  | some a => a.2
  | none => ""

/-- `QXmlStreamReader::readElementText()`: concatenate character data up to
the matching end element.  Returns the text and the number of tokens
consumed.  (On an unexpected nested start element the Qt reader raises an
error; the spec files the claims exercise contain none, and we stop there.) -/
def readElementText : List XmlToken → String × Nat
  | [] => ("", 0)
  | .characters t :: rest =>
    let r := readElementText rest
    (t ++ r.1, r.2 + 1)
  | .comment :: rest =>
    let r := readElementText rest
    (r.1, r.2 + 1)
  | _ :: _ => ("", 1)

/-- `PluginSpecPrivate::readDependencyEntry`: read the `name` (required) and
`version` (optional, cleared when not matching the version regular
expression) attributes of a `dependency` element; the trailing
`reader.readNext()` consumes one further token.  Returns the updated spec
and the number of tokens consumed from the stream after the element. -/
def PluginSpec.readDependencyEntry (s : PluginSpec) (attributes : List (String × String)) :
    PluginSpec × Nat :=
  let depName := attrValue attributes ("name")
  if qIsEmpty depName then
    (s.reportError ("Expected attribut \x27name\x27 at element dependency"), 0)
  else
    let depVersion := attrValue attributes ("version")
    let depVersion := if isValidVersion depVersion then depVersion else ""
    ({ s with dependencies := s.dependencies ++ [⟨depName, depVersion⟩] }, 1)

/-- `PluginSpecPrivate::readDependencies`: scan the rest of the stream for
`dependency` start elements (the loop runs `while (!reader.atEnd())`, so it
consumes every remaining token).  Structurally recursive on a step counter:
each iteration consumes at least one token, so `tokens.length` steps always
suffice (all entry points pass at least that). -/
def PluginSpec.readDependencies (fuel : Nat) (s : PluginSpec) (tokens : List XmlToken) : PluginSpec :=
  match tokens with
  | [] => s
  | tok :: rest =>
    match fuel with
    | 0 => s
    | fuel + 1 =>
      match tok with
      | .startElement nm attrs =>
        if nm == "dependency" then
          let r := PluginSpec.readDependencyEntry s attrs
          PluginSpec.readDependencies fuel r.1 (rest.drop r.2)
        else
          PluginSpec.readDependencies fuel s rest
      | _ => PluginSpec.readDependencies fuel s rest

/-- The `while (!reader.atEnd())` loop of `PluginSpecPrivate::readPluginSpec`
after the top-level attributes have been read: handle `description`,
`category` and `dependencyList` children.  Step counter as in
`readDependencies`. -/
def PluginSpec.readPluginSpecLoop (fuel : Nat) (s : PluginSpec) (tokens : List XmlToken) : PluginSpec :=
  match tokens with
  | [] => s
  | tok :: rest =>
    match fuel with
    | 0 => s
    | fuel + 1 =>
      match tok with
      | .startElement nm _attrs =>
        if nm == "description" then
          let r := readElementText rest
          PluginSpec.readPluginSpecLoop fuel { s with description := qTrim r.1 } (rest.drop r.2)
        else if nm == "category" then
          let r := readElementText rest
          PluginSpec.readPluginSpecLoop fuel { s with category := qTrim r.1 } (rest.drop r.2)
        else if nm == "dependencyList" then
          PluginSpec.readDependencies fuel s rest
        else
          PluginSpec.readPluginSpecLoop fuel s rest
      | _ => PluginSpec.readPluginSpecLoop fuel s rest

/-- `PluginSpecPrivate::readPluginSpec`: called on a start element; rejects a
top-level element other than `plugin` and a missing `name` attribute, clears
a `version` attribute that does not match the version regular expression,
then processes the children.  Returns the updated spec and the number of
tokens consumed after the start element (the child loops run to the end of
the stream, the error paths return without consuming anything). -/
def PluginSpec.readPluginSpec (s : PluginSpec) (element : String)
    (attributes : List (String × String)) (rest : List XmlToken) : PluginSpec × Nat :=
  if element != "plugin" then
    (s.reportError ("Expected element \x27plugin\x27 as top level element"), 0)
  else
    let nm := attrValue attributes ("name")
    if qIsEmpty nm then
      (s.reportError ("Expected attribut \x27name\x27 at element plugin"), 0)
    else
      let ver := attrValue attributes ("version")
      let ver := if isValidVersion ver then ver else ""
      (PluginSpec.readPluginSpecLoop rest.length { s with name := nm, version := ver } rest,
       rest.length)

/-- The `while (!reader.atEnd())` loop of `PluginSpecPrivate::read`: dispatch
every start element to `readPluginSpec`.  Step counter as in
`readDependencies`. -/
def PluginSpec.readLoop (fuel : Nat) (s : PluginSpec) (tokens : List XmlToken) : PluginSpec :=
  match tokens with
  | [] => s
  | tok :: rest =>
    match fuel with
    | 0 => s
    | fuel + 1 =>
      match tok with
      | .startElement nm attrs =>
        let r := PluginSpec.readPluginSpec s nm attrs rest
        PluginSpec.readLoop fuel r.1 (rest.drop r.2)
      | _ => PluginSpec.readLoop fuel s rest

/-- The outcome of opening a spec description file, the external input of
`PluginSpecPrivate::read`: the file may be missing or unreadable, or it
yields a token stream together with the `QXmlStreamReader` error state
(`hasError` / `errorString` / `lineNumber`) and the `QFileInfo`-derived
`absolutePath` and `fileName`. -/
inductive SpecFile where
  | missing (specFileName : String)
  | unreadable (specFileName : String)
  | xml (absolutePath fileNamePart : String) (tokens : List XmlToken)
      (readerError : Bool) (readerErrorString : String)
deriving DecidableEq

/-- The field-clearing prologue of `PluginSpecPrivate::read` (note that
`persistent`, `initializationFailed`, `filePath` and `fileName` are not
cleared by the source). -/
def PluginSpec.readClear (s : PluginSpec) : PluginSpec :=
  { s with
    name := "", version := "", description := "", category := "",
    errorString := "", dependencies := [], enabled := false,
    indirectlyDisabled := false, circularDependencyDetected := false,
    providesSpecs := [], dependencySpecs := [], plugin := false,
    state := .Invalid, hasError := false }

/-- `PluginSpecPrivate::read`: clear all fields; fail (state stays `Invalid`)
for a missing or unreadable file; otherwise record path and file name, run
the token loop, fail if the XML reader reported a syntax error, and on
success advance to `Read` with `enabled = true`.  (The source's parse-error
message interpolates `fileName`, `filePath` and the reader error string; the
`lineNumber` argument has no matching `%4` placeholder and is dropped by
`QString::arg`.) -/
def PluginSpec.read (s0 : PluginSpec) (file : SpecFile) : PluginSpec × Bool :=
  let s := s0.readClear
  match file with
  | .missing fn =>
    (s.reportError ("File does not exist: " ++ fn), false)
  | .unreadable fn =>
    (s.reportError ("File could not be opened for read: " ++ fn), false)
  | .xml absolutePath fileNamePart tokens readerError readerErrorString =>
    let s := { s with filePath := absolutePath, fileName := fileNamePart }
    let s := PluginSpec.readLoop tokens.length s tokens
    if readerError then
      (s.reportError ("Error parsing spec file " ++ s.fileName ++ ": " ++ s.filePath
        ++ ", at line " ++ readerErrorString), false)
    else
      ({ s with state := .Read, enabled := true }, true)

/-- The linear scan `foreach (PluginSpec *spec, specs)` of
`PluginSpecPrivate::resolveDependencies`: the first spec whose `name`
matches the dependency name. -/
def findSpec (world : List PluginSpec) (specs : List Nat) (depName : String) : Option Nat :=
  specs.find? fun j => (getSpec world j).name == depName

/-- One iteration of the dependency loop of
`PluginSpecPrivate::resolveDependencies`: on a hit, append `self` to the
found spec's `providesSpecs` and remember it in `resolvedDependencies`; on a
miss, record the error on `self` and continue. -/
def resolveStep (self : Nat) (specs : List Nat)
    (acc : List PluginSpec × List Nat) (dependency : PluginDependency) :
    List PluginSpec × List Nat :=
  match findSpec acc.1 specs dependency.name with
  | some j =>
    (updateSpec acc.1 j (fun t => { t with providesSpecs := t.providesSpecs ++ [self] }),
     acc.2 ++ [j])
  | none =>
    (updateSpec acc.1 self (fun t => t.reportError
      ("Plugin " ++ t.name ++ " - could not resolve dependency on " ++ dependency.name ++ ".")),
     acc.2)

/-- `PluginSpecPrivate::resolveDependencies(specs)` for the spec at index
`self`: bail out on a pre-existing error; revert `Resolved` to `Read`; run
the dependency loop; fail (leaving `dependencySpecs` untouched) when any
dependency was unresolved, otherwise install the resolved list and advance
to `Resolved`. -/
def resolveDependencies (world : List PluginSpec) (self : Nat) (specs : List Nat) :
    List PluginSpec × Bool :=
  let s := getSpec world self
  if s.hasError then (world, false)
  else
    let world1 :=
      if s.state = PState.Resolved then
        updateSpec world self (fun t => { t with state := PState.Read })
      else world
    let r := s.dependencies.foldl (resolveStep self specs) (world1, [])
    if (getSpec r.1 self).hasError then (r.1, false)
    else
      (updateSpec r.1 self (fun t => { t with dependencySpecs := r.2, state := PState.Resolved }),
       true)

/-- The value `resolvedDependencies` holds at the end of a fully successful
dependency loop of `resolveDependencies`: the first matching spec of
`specs`, per declared dependency. -/
def resolvedList (world : List PluginSpec) (self : Nat) (specs : List Nat) : List Nat :=
  (getSpec world self).dependencies.filterMap fun d => findSpec world specs d.name

/-- The `dependencySpec` scan condition of
`PluginSpecPrivate::resolveIndirectlyDisabled`: the dependency has an error,
is indirectly disabled, is disabled, or failed to initialize. -/
def badDependency (world : List PluginSpec) (j : Nat) : Bool :=
  let d := getSpec world j
  d.hasError || d.indirectlyDisabled || !d.isEnabled || d.initializationFailed

/-- The `pluginOrder` diagnostic string of the circular-dependency branch of
`resolveIndirectlyDisabled`: this spec's name followed by the stack entries
from the top down, up to and including the previous occurrence of this
spec. -/
def cycleOrderString (world : List PluginSpec) (stack : List Nat) (i : Nat) : String :=
  let visited := (stack.reverse.takeWhile (fun p => p != i)) ++ [i]
  (getSpec world i).name ++ String.join (visited.map fun p => " -> " ++ (getSpec world p).name)

/-- `PluginSpecPrivate::resolveIndirectlyDisabled(forceResolve)` for the spec
at index `i`.  The `static QStack<PluginSpecPrivate *> resolvedPluginsStack`
is the explicit `stack` argument (it is empty whenever a top-level call
starts, since every path pushes and pops symmetrically).  The
`foreach (PluginSpec *providesSpec, providesSpecs)` propagation loops are
the `foldlM` folds.  The recursion over `providesSpecs` need not terminate
structurally for arbitrary edge lists, so the definition carries an
explicit step counter; `none` means it was exhausted (the C++ recursion
nests at most one level per distinct spec, so `world.length + 1` is always
sufficient for well-formed worlds). -/
def resolveIndirectlyDisabled : Nat → List PluginSpec → List Nat → Nat → Bool → Option (List PluginSpec)
  | 0, _, _, _, _ => none
  | fuel + 1, world, stack, i, forceResolve =>
    let s := getSpec world i
    if s.circularDependencyDetected then some world
    else if i ∈ stack then
      let world1 := updateSpec world i fun t =>
        { t with indirectlyDisabled := true, circularDependencyDetected := true }
      let order := cycleOrderString world1 stack i
      match (getSpec world1 i).providesSpecs.foldlM
          (fun w p => resolveIndirectlyDisabled fuel w (stack ++ [i]) p true) world1 with
      | none => none
      | some world2 =>
        some (updateSpec world2 i fun t =>
          t.reportError ("Circular dependency detected: " ++ order))
    else
      let world1 :=
        if forceResolve then updateSpec world i (fun t => { t with indirectlyDisabled := false })
        else world
      if !forceResolve && s.indirectlyDisabled then some world
      else
        let world2 :=
          if s.dependencySpecs.any (badDependency world1) then
            updateSpec world1 i (fun t => { t with indirectlyDisabled := true })
          else world1
        if (getSpec world2 i).indirectlyDisabled || forceResolve then
          s.providesSpecs.foldlM
            (fun w p => resolveIndirectlyDisabled fuel w (stack ++ [i]) p forceResolve) world2
        else some world2

/-- The `pluginOrder` diagnostic of the circularity branch of
`PluginSpecPrivate::loadQueue` / `unloadQueue`: the circularity check queue
entries joined with arrows, then this spec's name. -/
def queueOrderString (world : List PluginSpec) (ccq : List Nat) (i : Nat) : String :=
  let base :=
    match ccq with
    | [] => ""
    | c0 :: rest =>
      (getSpec world c0).name ++ String.join (rest.map fun p => " -> " ++ (getSpec world p).name)
  base ++ " -> " ++ (getSpec world i).name

/-- `PluginSpecPrivate::unloadQueue(queue, circularityCheckQueue)` for the
spec at index `i`: skip disabled specs that never got loaded, deduplicate
via membership in `queue`, report circularity, otherwise enqueue all
dependents (`providesSpecs`) first (the `foldlM` fold; the source discards
the recursive boolean results) and then this spec.  Step counter as in
`resolveIndirectlyDisabled`. -/
def unloadQueueSpec : Nat → List PluginSpec → Nat → List Nat → List Nat → Option (List PluginSpec × List Nat × List Nat × Bool)
  | 0, _, _, _, _ => none
  | fuel + 1, world, i, queue, circularityCheckQueue =>
    let s := getSpec world i
    if (!s.enabled || s.indirectlyDisabled) && decide (s.state.toNat < PState.toNat PState.Loaded) then
      some (world, queue, circularityCheckQueue, false)
    else if i ∈ queue then
      some (world, queue, circularityCheckQueue, true)
    else if i ∈ circularityCheckQueue then
      let order := queueOrderString world circularityCheckQueue i
      some (updateSpec world i (fun t => t.reportError ("Circular dependency detected: " ++ order)),
        queue, circularityCheckQueue, false)
    else
      let ccq := circularityCheckQueue ++ [i]
      match s.providesSpecs.foldlM
          (fun (acc : List PluginSpec × List Nat × List Nat) p =>
            match unloadQueueSpec fuel acc.1 p acc.2.1 acc.2.2 with
            | none => none
            | some r => some (r.1, r.2.1, r.2.2.1))
          (world, queue, ccq) with
      | none => none
      | some (world1, queue1, ccq1) => some (world1, queue1 ++ [i], ccq1, true)

/-- The result of asking `QPluginLoader` for an instance, the external input
of `PluginSpecPrivate::loadPlugin`: an object implementing `IPlugin`, an
object of the wrong type, or a loader failure with its error string. -/
inductive LoadOutcome where
  | success
  | notAPlugin
  | loadFailed (loaderErrorString : String)
deriving DecidableEq

/-- `PluginSpecPrivate::loadPlugin`: return null when some dependency is not
yet loaded; otherwise ask the loader (outcome external).  On success store
the instance and advance to `Loaded`; a wrong-type object or a loader error
is recorded and the state stays `Resolved`.  `libName` is the platform
library file name built by `Utils::FileHelper::buildPluginName` (external).
The `Bool` is whether the returned `IPlugin *` is non-null. -/
def loadPlugin (world : List PluginSpec) (i : Nat) (libName : String) (outcome : LoadOutcome) :
    List PluginSpec × Bool :=
  let s := getSpec world i
  if s.dependencySpecs.any (fun j => !(getSpec world j).plugin) then (world, false)
  else
    match outcome with
    | .success =>
      (updateSpec world i (fun t => { t with plugin := true, state := PState.Loaded }), true)
    | .notAPlugin =>
      (updateSpec world i (fun t =>
        { t.reportError ("The file \x27" ++ libName ++ "\x27 is not compatible plugin.") with
          plugin := false }), false)
    | .loadFailed e =>
      (updateSpec world i (fun t => t.reportError e), s.plugin)

/-- `PluginSpecPrivate::unloadPlugin`: a no-op when no plugin instance is
held; otherwise call `shutdown` when the state reached `Initialized`, ask
the loader to unload (logging only), clear `plugin` and revert to
`Resolved`.  The two booleans report whether the plugin's `shutdown` was
invoked and whether the dynamic loader was touched. -/
def PluginSpec.unloadPlugin (s : PluginSpec) : PluginSpec × Bool × Bool :=
  if !s.plugin then (s, false, false)
  else
    let shutdownCalled := decide (PState.toNat PState.Initialized ≤ s.state.toNat)
    ({ s with plugin := false, state := PState.Resolved }, shutdownCalled, true)

/-- `PluginSpecPrivate::initializePlugin` with the plugin's `initialize`
result as external input: on failure record the error and set
`initializationFailed`; on success clear it and advance to `Initialized`. -/
def initializePlugin (world : List PluginSpec) (i : Nat) (initializeResult : Bool) :
    List PluginSpec × Bool :=
  if !initializeResult then
    (updateSpec world i (fun t =>
      { t.reportError ("Initialization of \x27" ++ t.name ++ "\x27 plugin failed: ") with
        initializationFailed := true }), false)
  else
    (updateSpec world i (fun t =>
      { t with initializationFailed := false, state := PState.Initialized }), true)

namespace PluginManagerPrivate

/-- The first loop of `PluginManagerPrivate::resolveDependencies`: invoke
`PluginSpec::resolveDependecies(specs)` on every spec (in the manager this
runs over `m_pluginToSpec.values()` with the same list as argument; the
disabled-plugins marking is split out, see `resolveDependenciesAll`).  The
boolean records whether every invocation succeeded. -/
def resolveDependenciesAll (world : List PluginSpec) (order : List Nat) (specs : List Nat) :
    List PluginSpec × Bool :=
  order.foldl (fun acc i =>
    let r := resolveDependencies acc.1 i specs
    (r.1, acc.2 && r.2)) (world, true)

/-- The second loop of `PluginManagerPrivate::resolveDependencies` (also run
by the plugin view after a settings change): invoke
`resolveIndirectlyDisabled(true)` on every spec, each call starting with an
empty traversal stack. -/
def resolveIndirectlyDisabledAll : Nat → List PluginSpec → List Nat → Option (List PluginSpec)
  | _, world, [] => some world
  | fuel, world, i :: rest =>
    match resolveIndirectlyDisabled fuel world [] i true with
    | none => none
    | some world1 => resolveIndirectlyDisabledAll fuel world1 rest

/-- `PluginManagerPrivate::unloadPlugins(unloadQueue)`: call `unloadPlugin`
on each queued spec (the `m_pluginToSpec` map bookkeeping has no effect on
the specs themselves). -/
def unloadPlugins (world : List PluginSpec) (queue : List Nat) : List PluginSpec :=
  queue.foldl (fun w i => updateSpec w i (fun t => (PluginSpec.unloadPlugin t).1)) world

/-- The external behaviour of the loaded plugin instances during
initialization: the result of `IPlugin::initialize` and of
`IPlugin::isShutdownRequested`, per spec index. -/
structure InitBehavior where
  initializeOk : Nat → Bool
  shutdownRequested : Nat → Bool

/-- The `foreach (PluginSpec *pluginSpec, pluginLoadQueue)` loop of
`PluginManagerPrivate::initializePlugins` followed by the final
`emit q->pluginsInitialized()`.  The result carries the updated world, the
returned boolean (`allInitialized`, or `false` on the shutdown-requested
early return), `pluginWhichRequestedShutdown`, and how many times the
`pluginsInitialized` notification was emitted before returning. -/
def initializePluginsLoop (fuel : Nat) (beh : InitBehavior) :
    List Nat → List PluginSpec → Bool → Option (List PluginSpec × Bool × String × Nat)
  | [], world, allInitialized => some (world, allInitialized, "", 1)
  | i :: rest, world, allInitialized =>
    let s := getSpec world i
    if s.state = PState.Loaded then
      let r := initializePlugin world i (beh.initializeOk i)
      if r.2 then initializePluginsLoop fuel beh rest r.1 allInitialized
      else
        if beh.shutdownRequested i then
          some (r.1, false, (getSpec r.1 i).name, 0)
        else
          match unloadQueueSpec fuel r.1 i [] [] with
          | none => none
          | some (world2, queue2, _, _) =>
            let world3 := unloadPlugins world2 queue2
            match resolveIndirectlyDisabled fuel world3 [] i true with
            | none => none
            | some world4 => initializePluginsLoop fuel beh rest world4 false
    else initializePluginsLoop fuel beh rest world allInitialized

/-- `PluginManagerPrivate::initializePlugins(monitor)`: walk the load queue
(computed by `loadQueue()`, here an input) and initialize every spec in
state `Loaded`; on a failure either return early (when the plugin requests
application shutdown) or unload the failing spec's dependents and
re-propagate `indirectlyDisabled`.  The monitor notification is external. -/
def initializePlugins (fuel : Nat) (world : List PluginSpec) (queue : List Nat)
    (beh : InitBehavior) : Option (List PluginSpec × Bool × String × Nat) :=
  initializePluginsLoop fuel beh queue world true

end PluginManagerPrivate

/-- `j` is a direct dependency of `i`: a forward `dependencySpecs` edge of
the resolved spec graph. -/
def dependsOn (world : List PluginSpec) (i j : Nat) : Prop :=
  j ∈ (getSpec world i).dependencySpecs

instance (world : List PluginSpec) (i j : Nat) : Decidable (dependsOn world i j) := by
  unfold dependsOn
  infer_instance

/-- `i` transitively depends on `j` (equivalently: `i` is a transitive
dependent of `j`, reaching it through one or more `dependencySpecs`
edges). -/
def reaches (world : List PluginSpec) (i j : Nat) : Prop :=
  Relation.TransGen (dependsOn world) i j

/-- The two worlds agree on every field of every spec except possibly the
`indirectlyDisabled` flag — the only field `resolveIndirectlyDisabled`
touches on acyclic inputs. -/
def flagOnly (base world : List PluginSpec) : Prop :=
  world.length = base.length ∧
  ∀ j, getSpec world j =
    { getSpec base j with indirectlyDisabled := (getSpec world j).indirectlyDisabled }

/-- Every set `indirectlyDisabled` flag is justified: the spec transitively
depends on the disabled spec `X`. -/
def SoundFlags (base : List PluginSpec) (X : Nat) (world : List PluginSpec) : Prop :=
  ∀ j, (getSpec world j).indirectlyDisabled = true → reaches base j X

/-- Each spec of `S` is indirectly disabled and justified by a dependency
edge to the disabled spec `X` or to another member of `S`, so no
recomputation of the flags can ever clear a member of `S` for good. -/
def Anchored (base : List PluginSpec) (X : Nat) (world : List PluginSpec)
    (S : List Nat) : Prop :=
  ∀ j ∈ S, (getSpec world j).indirectlyDisabled = true ∧
    ∃ d ∈ (getSpec base j).dependencySpecs, d = X ∨ d ∈ S

/-- `c` is a chain of consecutive `providesSpecs` edges starting at `t`. -/
def ProvChain (base : List PluginSpec) : Nat → List Nat → Prop
  | _, [] => True
  | t, p :: rest => p ∈ (getSpec base t).providesSpecs ∧ ProvChain base p rest

/-- `c` is a chain of consecutive `providesSpecs` edges from `t` that ends
at `e`. -/
def ProvChainEnd (base : List PluginSpec) : Nat → List Nat → Nat → Prop
  | t, [], e => t = e
  | t, p :: rest, e => p ∈ (getSpec base t).providesSpecs ∧ ProvChainEnd base p rest e

/-- The standing assumptions of the indirectly-disabled propagation
analysis: an acyclic, fully resolved, error-free spec set in which exactly
the spec `X` has been disabled and no flag has been computed yet. -/
structure RidContext (base : List PluginSpec) (X : Nat) : Prop where
  hX : X < base.length
  hflag : ∀ j, (getSpec base j).indirectlyDisabled = false
  hcirc : ∀ j, (getSpec base j).circularDependencyDetected = false
  herr : ∀ j, (getSpec base j).hasError = false
  hinitf : ∀ j, (getSpec base j).initializationFailed = false
  henX : (getSpec base X).isEnabled = false
  hen : ∀ j, j < base.length → j ≠ X → (getSpec base j).isEnabled = true
  hdr : ∀ j, ∀ d ∈ (getSpec base j).dependencySpecs, d < base.length
  hpr : ∀ j, ∀ p ∈ (getSpec base j).providesSpecs, p < base.length
  hsym : ∀ a b, a < base.length → b < base.length →
    (a ∈ (getSpec base b).dependencySpecs ↔ b ∈ (getSpec base a).providesSpecs)
  hacyc : ∀ j, j < base.length → ¬ reaches base j j

end PluginLoader

namespace Utils

theorem sortLoopAux_perm (edges : List (Nat × Nat)) :
    ∀ (n : Nat) (remaining : List Nat),
      List.Perm
        ((DependencyGraph.sortLoopAux edges n remaining).1
          ++ (DependencyGraph.sortLoopAux edges n remaining).2)
        remaining := by
  intro n
  induction n with
  | zero =>
    intro remaining
    simp [DependencyGraph.sortLoopAux]
  | succ n ih =>
    intro remaining
    cases h : remaining.find? (DependencyGraph.independent edges remaining) with
    | none => simp [DependencyGraph.sortLoopAux, h]
    | some m =>
      have hmem : m ∈ remaining := List.mem_of_find?_eq_some h
      simp only [DependencyGraph.sortLoopAux, h]
      exact ((ih (remaining.erase m)).cons m).trans (List.perm_cons_erase hmem).symm

theorem sortLoopAux_before (edges : List (Nat × Nat)) :
    ∀ (n : Nat) (remaining c : List Nat),
      DependencyGraph.sortLoopAux edges n remaining = (c, []) →
      ∀ u v : Nat, DependencyGraph.hasEdge edges u v = true → u ∈ remaining → v ∈ remaining →
        ∃ l1 l2, c = l1 ++ v :: l2 ∧ u ∈ l2 := by
  intro n
  induction n with
  | zero =>
    intro remaining c hsort u v _he hu _hv
    simp only [DependencyGraph.sortLoopAux, Prod.mk.injEq] at hsort
    rcases hsort with ⟨_, h2⟩
    subst h2
    exact absurd hu (List.not_mem_nil u)
  | succ n ih =>
    intro remaining c hsort u v he hu hv
    cases h : remaining.find? (DependencyGraph.independent edges remaining) with
    | none =>
      simp only [DependencyGraph.sortLoopAux, h, Prod.mk.injEq] at hsort
      rcases hsort with ⟨_, h2⟩
      subst h2
      exact absurd hu (List.not_mem_nil u)
    | some m =>
      simp only [DependencyGraph.sortLoopAux, h, Prod.mk.injEq] at hsort
      obtain ⟨hc, hrest⟩ := hsort
      have hmem : m ∈ remaining := List.mem_of_find?_eq_some h
      have hind : DependencyGraph.independent edges remaining m = true :=
        List.find?_some h
      have hum : u ≠ m := by
        intro huv
        subst huv
        have := (List.all_eq_true.mp hind) v hv
        simp [he] at this
      have hu' : u ∈ remaining.erase m := (List.mem_erase_of_ne hum).mpr hu
      rcases hsort' : DependencyGraph.sortLoopAux edges n (remaining.erase m) with ⟨c', lo'⟩
      have hc' : c = m :: c' := by rw [hsort'] at hc; exact hc.symm
      have hlo' : lo' = [] := by rw [hsort'] at hrest; exact hrest
      subst hlo'
      by_cases hvm : v = m
      · refine ⟨[], c', by simp [hc', hvm], ?_⟩
        have hperm := sortLoopAux_perm edges n (remaining.erase m)
        rw [hsort'] at hperm
        simp only [List.append_nil] at hperm
        exact hperm.symm.subset hu'
      · have hv' : v ∈ remaining.erase m := (List.mem_erase_of_ne hvm).mpr hv
        obtain ⟨l1, l2, hsplit, hul2⟩ := ih (remaining.erase m) c' hsort' u v he hu' hv'
        exact ⟨m :: l1, l2, by simp [hc', hsplit], hul2⟩

theorem sortLoop_before (edges : List (Nat × Nat)) (remaining c : List Nat)
    (hsort : DependencyGraph.sortLoop edges remaining = (c, []))
    (u v : Nat) (he : DependencyGraph.hasEdge edges u v = true)
    (hu : u ∈ remaining) (hv : v ∈ remaining) :
    ∃ l1 l2, c = l1 ++ v :: l2 ∧ u ∈ l2 :=
  sortLoopAux_before edges remaining.length remaining c hsort u v he hu hv

end Utils

namespace Utils

theorem vcmpLoop_sign (l1 : List String) :
    ∀ l2 : List String,
      (Configuration.vcmpLoop l1 l2).sign
        = specVersionCompare (l1.map qToInt) (l2.map qToInt) := by
  induction l1 with
  | nil =>
    intro l2
    cases l2 with
    | nil => simp [Configuration.vcmpLoop, specVersionCompare]
    | cons b bs =>
      simp only [Configuration.vcmpLoop, specVersionCompare, List.map_cons, List.map_nil]
      rw [Int.sign_eq_neg_one_iff_neg]
      simp only [List.length_nil, List.length_cons]
      omega
  | cons a as ih =>
    intro l2
    cases l2 with
    | nil =>
      simp only [Configuration.vcmpLoop, specVersionCompare, List.map_cons, List.map_nil]
      rw [Int.sign_eq_one_iff_pos]
      simp
    | cons b bs =>
      simp only [Configuration.vcmpLoop, List.map_cons, specVersionCompare]
      by_cases h : ((qToInt a : Nat) : Int) - ((qToInt b : Nat) : Int) = 0
      · have hab : qToInt a = qToInt b := by omega
        simp only [h, ite_false, if_neg (by omega : ¬ qToInt a < qToInt b),
          if_neg (by omega : ¬ qToInt b < qToInt a)]
        simpa using ih bs
      · rcases Nat.lt_or_ge (qToInt a) (qToInt b) with hlt | hge
        · rw [if_pos h, if_pos hlt, Int.sign_eq_neg_one_iff_neg]
          omega
        · have hgt : qToInt b < qToInt a := by omega
          rw [if_pos h, if_neg (by omega : ¬ qToInt a < qToInt b), if_pos hgt,
            Int.sign_eq_one_iff_pos]
          omega

end Utils

/-- C1: For every dependency graph on which `DependencyGraph::sort` completes
successfully (the loop leaves no node behind, i.e. the circular-dependency
assertion is not hit), and for every edge recorded by
`addEdge(dependentNode, requiredNode)` — an index pair `(u, v)` of
`m_edges` — the required node appears strictly before the dependent node in
the returned list.  `order` ranges over every initial ordering of the node
numbers, which covers every tie-break policy: natural, by-value, FIFO, LIFO
and the striped variants all run the same loop on some such ordering. -/
theorem C1_sort_emits_required_before_dependent {T : Type} [Inhabited T]
    (g : Utils.DependencyGraph T) (order : List Nat)
    (hcomplete : (Utils.DependencyGraph.sortLoop g.m_edges order).2 = [])
    (u v : Nat) (hedge : (u, v) ∈ g.m_edges) (hu : u ∈ order) (hv : v ∈ order) :
    ∃ l1 l2, (g.sortFrom order).1 = l1 ++ g.m_nodes.getD v default :: l2 ∧
      g.m_nodes.getD u default ∈ l2 := by
  rcases hsort : Utils.DependencyGraph.sortLoop g.m_edges order with ⟨c, lo⟩
  have hlo : lo = [] := by rw [hsort] at hcomplete; exact hcomplete
  subst hlo
  have he : Utils.DependencyGraph.hasEdge g.m_edges u v = true := by
    simp [Utils.DependencyGraph.hasEdge, hedge]
  obtain ⟨l1, l2, hc, hu2⟩ := Utils.sortLoop_before g.m_edges order c hsort u v he hu hv
  refine ⟨l1.map (fun i => g.m_nodes.getD i default),
    l2.map (fun i => g.m_nodes.getD i default), ?_, ?_⟩
  · simp [Utils.DependencyGraph.sortFrom, hsort, hc]
  · exact List.mem_map_of_mem _ hu2

/-- Witness for C1: the two-node graph where node 1 (`"B"`) requires node 0
(`"A"`), sorted in insertion order. -/
theorem C1_sort_emits_required_before_dependent_witness :
    ∃ l1 l2,
      ((⟨["A", "B"], [(1, 0)]⟩ : Utils.DependencyGraph String).sortFrom [0, 1]).1
          = l1 ++ (["A", "B"].getD 0 default) :: l2
        ∧ (["A", "B"].getD 1 default) ∈ l2 :=
  C1_sort_emits_required_before_dependent ⟨["A", "B"], [(1, 0)]⟩ [0, 1]
    (by decide) 1 0 (by decide) (by decide) (by decide)

/-- C8: scenario S5.  With resources interned as `Qt = 0`, `Gui = 1`, the
provided configuration `(Exists(Qt), Rel(Qt, Eq, "4.7"), Exists(Gui))`
satisfies the requirement
`Rel(Qt, Ge, "4.6.5") && Rel(Qt, Lt, "4.8") && Exists(Gui)`, and does not
satisfy it once the `Ge` version is changed to `"4.8"`.  No comparator is
registered, so the default comparison is used. -/
theorem C8_configuration_satisfies_scenario :
    (Utils.Configuration.satisfies ([] : List (Nat × (String → String → Int)))
        (.Comma (.Comma (.ExistsR 0) (.Rel 0 .Eq ("4.7"))) (.ExistsR 1))
        (.AndC (.AndC (.Rel 0 .Ge ("4.6.5")) (.Rel 0 .Lt ("4.8"))) (.ExistsR 1))
      = some true) ∧
    (Utils.Configuration.satisfies ([] : List (Nat × (String → String → Int)))
        (.Comma (.Comma (.ExistsR 0) (.Rel 0 .Eq ("4.7"))) (.ExistsR 1))
        (.AndC (.AndC (.Rel 0 .Ge ("4.8")) (.Rel 0 .Lt ("4.8"))) (.ExistsR 1))
      = some false) := by
  constructor <;> decide

/-- Counterexample to C9 as stated: the claim quantifies over every version
string matching `[0-9]+(\.[0-9]+)*`, but `QString::toInt` parses into a
32-bit `int` and returns 0 for a component beyond `INT_MAX`, so
`defaultVersionCompareFunction("2147483648", "1")` computes `0 - 1` and is
negative although the first version is component-wise the larger one. -/
theorem C9_default_compare_fails_beyond_int_range :
    Utils.matchesDefaultVersionFormat ("2147483648") = true ∧
    Utils.matchesDefaultVersionFormat ("1") = true ∧
    ¬ ((Utils.Configuration.defaultVersionCompareFunction ("2147483648") ("1")).sign
        = Utils.specVersionCompare (Utils.versionComponents ("2147483648"))
            (Utils.versionComponents ("1"))) ∧
    Utils.Configuration.defaultVersionCompareFunction ("2147483648") ("1") < 0 := by
  refine ⟨by decide, by decide, by decide, by decide⟩

/-- C9 (amended): for a resource with no registered comparator the dispatch
falls back to `defaultVersionCompareFunction`, and on version strings
matching `[0-9]+(\.[0-9]+)*` whose components all fit a 32-bit `int`
(are at most `INT_MAX = 2147483647`) that function compares the
dot-separated components as integers left to right with the shorter string
less on an equal shared prefix (its sign equals the specification's
component-wise comparison); in particular `compare("1.2.3", "1.2.10")` is
negative.  Components beyond `INT_MAX` are read as 0 by `QString::toInt`,
breaking the component-wise reading — see the counterexample. -/
theorem C9_default_compare_is_componentwise_numeric :
    (∀ v1 v2 : String,
        Utils.matchesDefaultVersionFormat v1 = true →
        Utils.matchesDefaultVersionFormat v2 = true →
        (∀ c ∈ Utils.versionComponents v1, c ≤ 2147483647) →
        (∀ c ∈ Utils.versionComponents v2, c ≤ 2147483647) →
        (Utils.Configuration.defaultVersionCompareFunction v1 v2).sign
          = Utils.specVersionCompare (Utils.versionComponents v1) (Utils.versionComponents v2)) ∧
    (∀ (registry : List (Nat × (String → String → Int))) (resource : Nat),
        registry.find? (fun e => e.1 == resource) = none →
        Utils.Configuration.versionCompare registry resource
          = Utils.Configuration.defaultVersionCompareFunction) ∧
    Utils.Configuration.defaultVersionCompareFunction ("1.2.3") ("1.2.10") < 0 := by
  refine ⟨?_, ?_, ?_⟩
  · intro v1 v2 h1 h2 hb1 hb2
    have hmap : ∀ (v : String), Utils.matchesDefaultVersionFormat v = true →
        (∀ c ∈ Utils.versionComponents v, c ≤ 2147483647) →
        (qsplit v '.').map qToInt = Utils.versionComponents v := by
      intro v hv hb
      rw [Utils.versionComponents]
      refine List.map_congr_left ?_
      intro s hs
      have hall : allDigits s = true :=
        List.all_eq_true.mp hv s hs
      have hle : charsToNat s.data ≤ 2147483647 :=
        hb (charsToNat s.data) (List.mem_map_of_mem (fun s => charsToNat s.data) hs)
      rw [qToInt, if_pos ⟨hall, hle⟩]
    rw [← hmap v1 h1 hb1, ← hmap v2 h2 hb2]
    exact Utils.vcmpLoop_sign (qsplit v1 '.') (qsplit v2 '.')
  · intro registry resource h
    simp [Utils.Configuration.versionCompare, h]
  · decide

/-- Witness for the amended C9 at `v1 = "1.2.3"`, `v2 = "1.2.10"` and an
empty registry. -/
theorem C9_default_compare_is_componentwise_numeric_witness :
    ((Utils.Configuration.defaultVersionCompareFunction ("1.2.3") ("1.2.10")).sign
        = Utils.specVersionCompare (Utils.versionComponents ("1.2.3"))
            (Utils.versionComponents ("1.2.10")))
      ∧ Utils.Configuration.versionCompare ([] : List (Nat × (String → String → Int))) 0
          = Utils.Configuration.defaultVersionCompareFunction
      ∧ Utils.Configuration.defaultVersionCompareFunction ("1.2.3") ("1.2.10") < 0 :=
  ⟨C9_default_compare_is_componentwise_numeric.1 ("1.2.3") ("1.2.10") (by decide) (by decide)
      (by decide) (by decide),
   C9_default_compare_is_componentwise_numeric.2.1 [] 0 (by rfl),
   C9_default_compare_is_componentwise_numeric.2.2⟩

/-- C10: calling `unloadPlugin` on a spec whose `plugin()` is null returns
immediately: no field changes (in particular the state is not reverted to
`Resolved`), the plugin's `shutdown` is not invoked, and the dynamic loader
is not touched. -/
theorem C10_unloadPlugin_noop_when_plugin_null (s : PluginLoader.PluginSpec)
    (h : s.plugin = false) :
    PluginLoader.PluginSpec.unloadPlugin s = (s, false, false) := by
  simp [PluginLoader.PluginSpec.unloadPlugin, h]

/-- Witness for C10 at a freshly constructed spec (state `Invalid`, plugin
null). -/
theorem C10_unloadPlugin_noop_when_plugin_null_witness :
    PluginLoader.PluginSpec.unloadPlugin {} = ({}, false, false) :=
  C10_unloadPlugin_noop_when_plugin_null {} rfl

/-- C4: a spec that successfully read a description file declaring no
dependencies and then succeeded in `resolveDependencies` over the set
containing only itself is in state `Resolved`; after a successful
`loadPlugin` it is `Loaded`, and a subsequent `unloadPlugin` returns it to
`Resolved` with a null `plugin()`. -/
theorem C4_read_resolve_load_unload_roundtrip
    (s0 : PluginLoader.PluginSpec) (file : PluginLoader.SpecFile)
    (s1 : PluginLoader.PluginSpec) (libName : String)
    (hread : PluginLoader.PluginSpec.read s0 file = (s1, true))
    (hnodeps : s1.dependencies = [])
    (hresolve : (PluginLoader.resolveDependencies [s1] 0 [0]).2 = true) :
    (PluginLoader.getSpec (PluginLoader.resolveDependencies [s1] 0 [0]).1 0).state
        = PluginLoader.PState.Resolved
      ∧ (PluginLoader.getSpec
          (PluginLoader.loadPlugin (PluginLoader.resolveDependencies [s1] 0 [0]).1 0 libName
            PluginLoader.LoadOutcome.success).1 0).state = PluginLoader.PState.Loaded
      ∧ ((PluginLoader.getSpec
          (PluginLoader.loadPlugin (PluginLoader.resolveDependencies [s1] 0 [0]).1 0 libName
            PluginLoader.LoadOutcome.success).1 0).unloadPlugin).1.state
          = PluginLoader.PState.Resolved
      ∧ ((PluginLoader.getSpec
          (PluginLoader.loadPlugin (PluginLoader.resolveDependencies [s1] 0 [0]).1 0 libName
            PluginLoader.LoadOutcome.success).1 0).unloadPlugin).1.plugin = false := by
  have hstate : s1.state = PluginLoader.PState.Read := by
    cases file with
    | missing fn => simp [PluginLoader.PluginSpec.read] at hread
    | unreadable fn => simp [PluginLoader.PluginSpec.read] at hread
    | xml absolutePath fileNamePart tokens readerError readerErrorString =>
      cases readerError with
      | true => simp [PluginLoader.PluginSpec.read] at hread
      | false =>
        simp only [PluginLoader.PluginSpec.read, Bool.false_eq_true, if_false,
          Prod.mk.injEq] at hread
        rw [← hread.1]
  have hhe : s1.hasError = false := by
    by_contra hne
    have hhe : s1.hasError = true := by
      cases h : s1.hasError
      · exact absurd h hne
      · rfl
    simp [PluginLoader.resolveDependencies, PluginLoader.getSpec, hhe] at hresolve
  have hres1 :
      PluginLoader.resolveDependencies [s1] 0 [0]
        = ([{ s1 with dependencySpecs := [], state := PluginLoader.PState.Resolved }], true) := by
    simp [PluginLoader.resolveDependencies, PluginLoader.getSpec, PluginLoader.updateSpec,
      hhe, hstate, hnodeps]
  rw [hres1]
  simp [PluginLoader.getSpec, PluginLoader.loadPlugin, PluginLoader.updateSpec,
    PluginLoader.PluginSpec.unloadPlugin, PluginLoader.PState.toNat]

/-- Witness for C4: the minimal valid description file
`<plugin name="A"/>`. -/
theorem C4_read_resolve_load_unload_roundtrip_witness :
    (PluginLoader.PluginSpec.read {} (PluginLoader.SpecFile.xml ("/plugins") ("a.spec")
        [PluginLoader.XmlToken.startElement ("plugin") [("name", "A")]] false "")
      = ((PluginLoader.PluginSpec.read {} (PluginLoader.SpecFile.xml ("/plugins") ("a.spec")
          [PluginLoader.XmlToken.startElement ("plugin") [("name", "A")]] false "")).1, true))
    ∧ (PluginLoader.getSpec
        (PluginLoader.resolveDependencies
          [(PluginLoader.PluginSpec.read {} (PluginLoader.SpecFile.xml ("/plugins") ("a.spec")
            [PluginLoader.XmlToken.startElement ("plugin") [("name", "A")]] false "")).1] 0 [0]).1
        0).state = PluginLoader.PState.Resolved :=
  ⟨by decide,
   (C4_read_resolve_load_unload_roundtrip {}
      (PluginLoader.SpecFile.xml ("/plugins") ("a.spec")
        [PluginLoader.XmlToken.startElement ("plugin") [("name", "A")]] false "")
      _ ("libA.so") (by decide) (by decide) (by decide)).1⟩

/-- C5: the claim says every input on which `read` records an error — a
missing file, an unreadable file, or a parse error (including a wrong
top-level element or a missing required `name` attribute) — leaves the
state at `Invalid` and makes `read` return failure.  The code satisfies
this for missing and unreadable files and for XML reader errors (first
three conjuncts), but contradicts it for a wrong top-level element and for
a missing `name` attribute: the error is recorded via `reportError`, yet
`read` only consults the XML reader's own error flag, so it still sets the
state to `Read` and returns `true` (last two conjuncts) — contrary to its
own documentation ("return true if file was successfully parsed"). -/
theorem C5_read_error_handling_at_concrete_inputs :
    (PluginLoader.PluginSpec.read {} (PluginLoader.SpecFile.missing ("x.spec"))
        = ((PluginLoader.PluginSpec.read {} (PluginLoader.SpecFile.missing ("x.spec"))).1, false)
      ∧ (PluginLoader.PluginSpec.read {} (PluginLoader.SpecFile.missing ("x.spec"))).1.state
          = PluginLoader.PState.Invalid)
    ∧ (PluginLoader.PluginSpec.read {} (PluginLoader.SpecFile.unreadable ("x.spec"))
        = ((PluginLoader.PluginSpec.read {} (PluginLoader.SpecFile.unreadable ("x.spec"))).1, false)
      ∧ (PluginLoader.PluginSpec.read {} (PluginLoader.SpecFile.unreadable ("x.spec"))).1.state
          = PluginLoader.PState.Invalid)
    ∧ ((PluginLoader.PluginSpec.read {} (PluginLoader.SpecFile.xml ("/p") ("a.spec")
          [PluginLoader.XmlToken.startElement ("plugin") [("name", "A")]] true
          ("Premature end of document."))).2 = false
      ∧ (PluginLoader.PluginSpec.read {} (PluginLoader.SpecFile.xml ("/p") ("a.spec")
          [PluginLoader.XmlToken.startElement ("plugin") [("name", "A")]] true
          ("Premature end of document."))).1.state = PluginLoader.PState.Invalid)
    ∧ ((PluginLoader.PluginSpec.read {} (PluginLoader.SpecFile.xml ("/p") ("a.spec")
          [PluginLoader.XmlToken.startElement ("foo") []] false "")).2 = true
      ∧ (PluginLoader.PluginSpec.read {} (PluginLoader.SpecFile.xml ("/p") ("a.spec")
          [PluginLoader.XmlToken.startElement ("foo") []] false "")).1.hasError = true
      ∧ (PluginLoader.PluginSpec.read {} (PluginLoader.SpecFile.xml ("/p") ("a.spec")
          [PluginLoader.XmlToken.startElement ("foo") []] false "")).1.state
          = PluginLoader.PState.Read)
    ∧ ((PluginLoader.PluginSpec.read {} (PluginLoader.SpecFile.xml ("/p") ("a.spec")
          [PluginLoader.XmlToken.startElement ("plugin") []] false "")).2 = true
      ∧ (PluginLoader.PluginSpec.read {} (PluginLoader.SpecFile.xml ("/p") ("a.spec")
          [PluginLoader.XmlToken.startElement ("plugin") []] false "")).1.hasError = true
      ∧ (PluginLoader.PluginSpec.read {} (PluginLoader.SpecFile.xml ("/p") ("a.spec")
          [PluginLoader.XmlToken.startElement ("plugin") []] false "")).1.state
          = PluginLoader.PState.Read) := by
  refine ⟨⟨?_, ?_⟩, ⟨?_, ?_⟩, ⟨?_, ?_⟩, ⟨?_, ?_, ?_⟩, ⟨?_, ?_, ?_⟩⟩ <;> decide

namespace PluginLoader

theorem length_updateSpec (W : List PluginSpec) (i : Nat) (f : PluginSpec → PluginSpec) :
    (updateSpec W i f).length = W.length := by
  simp [updateSpec]

theorem getSpec_updateSpec (W : List PluginSpec) (i : Nat) (f : PluginSpec → PluginSpec) (j : Nat) :
    getSpec (updateSpec W i f) j
      = if j = i ∧ i < W.length then f (getSpec W i) else getSpec W j := by
  unfold getSpec updateSpec
  by_cases hi : i < W.length
  · rw [List.getD_eq_getD_get? _ default j, List.get?_set_of_lt' _ _ hi]
    by_cases hj : j = i
    · subst hj
      rw [if_pos rfl, Option.getD_some, if_pos ⟨rfl, hi⟩]
      rfl
    · rw [if_neg (fun h => hj h.symm), if_neg (by tauto), ← List.getD_eq_getD_get?]
  · rw [List.set_eq_of_length_le (Nat.le_of_not_lt hi), if_neg (by tauto)]

theorem find?_congr_pred {α : Type} (p q : α → Bool) :
    ∀ l : List α, (∀ a ∈ l, p a = q a) → l.find? p = l.find? q := by
  intro l
  induction l with
  | nil => intro _; rfl
  | cons a as ih =>
    intro h
    have ha := h a (by simp)
    simp only [List.find?_cons]
    rw [ha]
    cases q a
    · exact ih fun b hb => h b (by simp [hb])
    · rfl

theorem findSpec_congr (W W0 : List PluginSpec) (specs : List Nat) (nm : String)
    (h : ∀ j, (getSpec W j).name = (getSpec W0 j).name) :
    findSpec W specs nm = findSpec W0 specs nm := by
  unfold findSpec
  exact find?_congr_pred _ _ specs fun j _ => by rw [h j]

end PluginLoader

namespace PluginLoader

theorem resolveStep_found (self : Nat) (specs : List Nat) (W : List PluginSpec)
    (acc : List Nat) (d : PluginDependency) (j0 : Nat)
    (h : findSpec W specs d.name = some j0) :
    resolveStep self specs (W, acc) d
      = (updateSpec W j0 (fun t => { t with providesSpecs := t.providesSpecs ++ [self] }),
         acc ++ [j0]) := by
  simp [resolveStep, h]

theorem resolveFold_success (self : Nat) (specs : List Nat) :
    ∀ (deps : List PluginDependency) (W W0 : List PluginSpec) (acc : List Nat),
      W.length = W0.length →
      (∀ j, (getSpec W j).name = (getSpec W0 j).name) →
      (∀ j ∈ specs, j < W0.length) →
      (∀ d ∈ deps, (findSpec W0 specs d.name).isSome) →
      (deps.foldl (resolveStep self specs) (W, acc)).2
          = acc ++ deps.filterMap (fun d => findSpec W0 specs d.name)
        ∧ (deps.foldl (resolveStep self specs) (W, acc)).1.length = W.length
        ∧ ∀ j, getSpec (deps.foldl (resolveStep self specs) (W, acc)).1 j
            = { getSpec W j with
                providesSpecs := (getSpec W j).providesSpecs
                  ++ List.replicate
                    ((deps.filterMap (fun d => findSpec W0 specs d.name)).count j) self } := by
  intro deps
  induction deps with
  | nil =>
    intro W W0 acc _hlen _hnames _hspecs _hfound
    refine ⟨by simp, rfl, fun j => by simp⟩
  | cons d ds ih =>
    intro W W0 acc hlen hnames hspecs hfound
    have hds : (findSpec W0 specs d.name).isSome := hfound d (by simp)
    obtain ⟨j0, hj0⟩ := Option.isSome_iff_exists.mp hds
    have hfW : findSpec W specs d.name = some j0 :=
      (findSpec_congr W W0 specs d.name hnames).trans hj0
    have hj0specs : j0 ∈ specs := List.mem_of_find?_eq_some hj0
    have hj0lt : j0 < W.length := by rw [hlen]; exact hspecs j0 hj0specs
    rw [List.foldl_cons, resolveStep_found self specs W acc d j0 hfW]
    set W1 := updateSpec W j0 (fun t => { t with providesSpecs := t.providesSpecs ++ [self] })
      with hW1
    have hlen1 : W1.length = W.length := length_updateSpec ..
    have hget1 : ∀ j, getSpec W1 j
        = if j = j0 then { getSpec W j0 with
            providesSpecs := (getSpec W j0).providesSpecs ++ [self] }
          else getSpec W j := by
      intro j
      rw [hW1, getSpec_updateSpec]
      by_cases hj : j = j0
      · simp [hj, hj0lt]
      · simp [hj]
    have hnames1 : ∀ j, (getSpec W1 j).name = (getSpec W0 j).name := by
      intro j
      rw [hget1 j]
      by_cases hj : j = j0
      · simp only [hj, if_pos rfl]
        exact hnames j0
      · simp only [hj, if_neg hj]
        exact hnames j
    obtain ⟨ha, hb, hc⟩ := ih W1 W0 (acc ++ [j0]) (hlen1.trans hlen) hnames1 hspecs
      (fun e he => hfound e (by simp [he]))
    refine ⟨?_, ?_, ?_⟩
    · rw [ha]
      simp [List.filterMap_cons, hj0]
    · rw [hb, hlen1]
    · intro j
      rw [hc j, hget1 j]
      by_cases hj : j = j0
      · subst hj
        rw [if_pos rfl]
        have hl : ((getSpec W j).providesSpecs ++ [self])
              ++ List.replicate ((ds.filterMap fun e => findSpec W0 specs e.name).count j) self
            = (getSpec W j).providesSpecs
              ++ List.replicate
                (((d :: ds).filterMap fun e => findSpec W0 specs e.name).count j) self := by
          simp only [List.filterMap_cons, hj0, List.count_cons_self, List.replicate_succ]
          rw [List.append_assoc, List.singleton_append]
        exact congrArg (fun l => { getSpec W j with providesSpecs := l }) hl
      · rw [if_neg hj]
        have hcnt : ((d :: ds).filterMap fun e => findSpec W0 specs e.name).count j
            = (ds.filterMap fun e => findSpec W0 specs e.name).count j := by
          simp only [List.filterMap_cons, hj0, List.count_cons]
          simp [hj, Ne.symm hj]
        rw [hcnt]

end PluginLoader

namespace PluginLoader

theorem resolveDependencies_success (W : List PluginSpec) (self : Nat) (specs : List Nat)
    (hself : self < W.length)
    (hspecs : ∀ j ∈ specs, j < W.length)
    (hhe : (getSpec W self).hasError = false)
    (hfound : ∀ d ∈ (getSpec W self).dependencies, (findSpec W specs d.name).isSome) :
    (resolveDependencies W self specs).2 = true
      ∧ (resolveDependencies W self specs).1.length = W.length
      ∧ getSpec (resolveDependencies W self specs).1 self
          = { getSpec W self with
              dependencySpecs := resolvedList W self specs,
              providesSpecs := (getSpec W self).providesSpecs
                ++ List.replicate ((resolvedList W self specs).count self) self,
              state := PState.Resolved }
      ∧ ∀ j, j ≠ self → getSpec (resolveDependencies W self specs).1 j
          = { getSpec W j with
              providesSpecs := (getSpec W j).providesSpecs
                ++ List.replicate ((resolvedList W self specs).count j) self } := by
  have hW1 :
      ∃ W1, ((if (getSpec W self).state = PState.Resolved then
          updateSpec W self (fun t => { t with state := PState.Read }) else W) = W1)
        ∧ W1.length = W.length
        ∧ (∀ j, j ≠ self → getSpec W1 j = getSpec W j)
        ∧ (∀ j, (getSpec W1 j).name = (getSpec W j).name)
        ∧ (getSpec W1 self).providesSpecs = (getSpec W self).providesSpecs
        ∧ (getSpec W1 self).hasError = (getSpec W self).hasError
        ∧ (getSpec W1 self).dependencies = (getSpec W self).dependencies := by
    by_cases hst : (getSpec W self).state = PState.Resolved
    · rw [if_pos hst]
      refine ⟨_, rfl, length_updateSpec .., ?_, ?_, ?_, ?_, ?_⟩
      · intro j hj
        rw [getSpec_updateSpec, if_neg (fun h => hj h.1)]
      · intro j
        rw [getSpec_updateSpec]
        by_cases hjs : j = self
        · subst hjs
          rw [if_pos ⟨rfl, hself⟩]
        · rw [if_neg (fun h => hjs h.1)]
      · rw [getSpec_updateSpec, if_pos ⟨rfl, hself⟩]
      · rw [getSpec_updateSpec, if_pos ⟨rfl, hself⟩]
      · rw [getSpec_updateSpec, if_pos ⟨rfl, hself⟩]
    · rw [if_neg hst]
      exact ⟨W, rfl, rfl, fun j _ => rfl, fun j => rfl, rfl, rfl, rfl⟩
  obtain ⟨W1, hW1eq, hlen1, hother1, hnames1, hprov1, herr1, hdeps1⟩ := hW1
  have hfold := resolveFold_success self specs (getSpec W self).dependencies W1 W []
    (by rw [hlen1]) hnames1 hspecs hfound
  obtain ⟨ha, hb, hc⟩ := hfold
  have hres : resolveDependencies W self specs
      = (updateSpec ((getSpec W self).dependencies.foldl (resolveStep self specs) (W1, [])).1 self
          (fun t => { t with
            dependencySpecs := ((getSpec W self).dependencies.foldl
              (resolveStep self specs) (W1, [])).2,
            state := PState.Resolved }), true) := by
    unfold resolveDependencies
    simp only [hhe, Bool.false_eq_true, if_false, hW1eq]
    have herrfold : (getSpec ((getSpec W self).dependencies.foldl
        (resolveStep self specs) (W1, [])).1 self).hasError = false := by
      rw [hc self]
      show (getSpec W1 self).hasError = false
      rw [herr1]
      exact hhe
    rw [herrfold]
    simp
  have hresolved : ((getSpec W self).dependencies.foldl (resolveStep self specs) (W1, [])).2
      = resolvedList W self specs := by
    rw [ha, resolvedList]
    simp
  have hfoldlen : ((getSpec W self).dependencies.foldl (resolveStep self specs) (W1, [])).1.length
      = W.length := by rw [hb, hlen1]
  refine ⟨by rw [hres], ?_, ?_, ?_⟩
  · rw [hres]
    simp only [length_updateSpec]
    exact hfoldlen
  · rw [hres]
    simp only []
    rw [getSpec_updateSpec]
    rw [if_pos ⟨rfl, by rw [hfoldlen]; exact hself⟩]
    rw [hc self, hresolved]
    by_cases hst : (getSpec W self).state = PState.Resolved
    · have hW1self : getSpec W1 self = { getSpec W self with state := PState.Read } := by
        rw [← hW1eq, if_pos hst, getSpec_updateSpec, if_pos ⟨rfl, hself⟩]
      rw [hW1self]
      rfl
    · have hW1self : getSpec W1 self = getSpec W self := by
        rw [← hW1eq, if_neg hst]
      rw [hW1self]
      rfl
  · intro j hj
    rw [hres]
    simp only []
    rw [getSpec_updateSpec]
    rw [if_neg (by intro h; exact hj h.1)]
    rw [hc j, hother1 j hj]
    rfl

end PluginLoader

namespace PluginLoader

theorem resolveStep_none (self : Nat) (specs : List Nat) (W : List PluginSpec)
    (acc : List Nat) (d : PluginDependency)
    (h : findSpec W specs d.name = none) :
    resolveStep self specs (W, acc) d
      = (updateSpec W self (fun t => t.reportError
          ("Plugin " ++ t.name ++ " - could not resolve dependency on " ++ d.name ++ ".")),
         acc) := by
  simp [resolveStep, h]

theorem resolveFold_hasError (self : Nat) (specs : List Nat) :
    ∀ (deps : List PluginDependency) (W W0 : List PluginSpec) (acc : List Nat),
      W.length = W0.length →
      (∀ j, (getSpec W j).name = (getSpec W0 j).name) →
      self < W0.length →
      (getSpec (deps.foldl (resolveStep self specs) (W, acc)).1 self).hasError
        = ((getSpec W self).hasError
            || deps.any fun d => (findSpec W0 specs d.name).isNone) := by
  intro deps
  induction deps with
  | nil =>
    intro W W0 acc _ _ _
    simp
  | cons d ds ih =>
    intro W W0 acc hlen hnames hself
    have hfind : findSpec W specs d.name = findSpec W0 specs d.name :=
      findSpec_congr W W0 specs d.name hnames
    rw [List.foldl_cons]
    cases hW0find : findSpec W0 specs d.name with
    | some j0 =>
      rw [resolveStep_found self specs W acc d j0 (hfind.trans hW0find)]
      set W1 := updateSpec W j0
        (fun t => { t with providesSpecs := t.providesSpecs ++ [self] }) with hW1
      have hget1 : ∀ j, (getSpec W1 j).hasError = (getSpec W j).hasError
          ∧ (getSpec W1 j).name = (getSpec W j).name := by
        intro j
        rw [hW1, getSpec_updateSpec]
        by_cases hj : j = j0
        · subst hj
          by_cases hlt : j < W.length
          · rw [if_pos ⟨rfl, hlt⟩]
            exact ⟨rfl, rfl⟩
          · rw [if_neg (fun hh => hlt hh.2)]
            exact ⟨rfl, rfl⟩
        · rw [if_neg (fun hh => hj hh.1)]
          exact ⟨rfl, rfl⟩
      have := ih W1 W0 (acc ++ [j0]) (by rw [hW1, length_updateSpec, hlen])
        (fun j => ((hget1 j).2).trans (hnames j)) hself
      rw [this, (hget1 self).1]
      simp [List.any_cons, hW0find]
    | none =>
      rw [resolveStep_none self specs W acc d (hfind.trans hW0find)]
      set W1 := updateSpec W self (fun t => t.reportError
        ("Plugin " ++ t.name ++ " - could not resolve dependency on " ++ d.name ++ ".")) with hW1
      have hselfW : self < W.length := by rw [hlen]; exact hself
      have hget1self : (getSpec W1 self).hasError = true := by
        rw [hW1, getSpec_updateSpec, if_pos ⟨rfl, hselfW⟩]
        rfl
      have hnames1 : ∀ j, (getSpec W1 j).name = (getSpec W0 j).name := by
        intro j
        rw [hW1, getSpec_updateSpec]
        by_cases hj : j = self ∧ self < W.length
        · rw [if_pos hj, ← hnames j, hj.1]
          rfl
        · rw [if_neg hj]
          exact hnames j
      have := ih W1 W0 acc (by rw [hW1, length_updateSpec, hlen]) hnames1 hself
      rw [this, hget1self]
      simp [List.any_cons, hW0find]

theorem resolveDependencies_true_iff (W : List PluginSpec) (self : Nat) (specs : List Nat)
    (hself : self < W.length)
    (hspecs : ∀ j ∈ specs, j < W.length) :
    (resolveDependencies W self specs).2 = true
      ↔ ((getSpec W self).hasError = false
          ∧ ∀ d ∈ (getSpec W self).dependencies, (findSpec W specs d.name).isSome) := by
  constructor
  · intro h
    have hhe : (getSpec W self).hasError = false := by
      cases hhe : (getSpec W self).hasError
      · rfl
      · exfalso
        simp [resolveDependencies, hhe] at h
    refine ⟨hhe, ?_⟩
    by_contra hno
    push_neg at hno
    obtain ⟨d, hd, hdnone⟩ := hno
    have hany : ((getSpec W self).dependencies.any
        fun e => (findSpec W specs e.name).isNone) = true := by
      rw [List.any_eq_true]
      refine ⟨d, hd, ?_⟩
      simp [Option.isNone_iff_eq_none, Option.not_isSome_iff_eq_none.mp hdnone]
    simp only [resolveDependencies, hhe, Bool.false_eq_true, if_false] at h
    by_cases hst : (getSpec W self).state = PState.Resolved
    · rw [if_pos hst] at h
      have hfe := resolveFold_hasError self specs (getSpec W self).dependencies
        (updateSpec W self (fun t => { t with state := PState.Read })) W []
        (length_updateSpec ..)
        (by
          intro j
          rw [getSpec_updateSpec]
          by_cases hj : j = self ∧ self < W.length
          · rw [if_pos hj, hj.1]
          · rw [if_neg hj])
        hself
      rw [getSpec_updateSpec, if_pos ⟨rfl, hself⟩] at hfe
      have herrW1 : ({ getSpec W self with state := PState.Read } : PluginSpec).hasError
          = (getSpec W self).hasError := rfl
      rw [herrW1, hhe, hany] at hfe
      rw [hfe] at h
      simp at h
    · rw [if_neg hst] at h
      have hfe := resolveFold_hasError self specs (getSpec W self).dependencies W W []
        rfl (fun j => rfl) hself
      rw [hhe, hany] at hfe
      rw [hfe] at h
      simp at h
  · intro ⟨h1, h2⟩
    exact (resolveDependencies_success W self specs hself hspecs h1 h2).1

end PluginLoader

namespace PluginLoader

theorem resolveDependencies_names (W : List PluginSpec) (self : Nat) (specs : List Nat)
    (hself : self < W.length) (hspecs : ∀ j ∈ specs, j < W.length)
    (hhe : (getSpec W self).hasError = false)
    (hfound : ∀ d ∈ (getSpec W self).dependencies, (findSpec W specs d.name).isSome) :
    ∀ j, (getSpec (resolveDependencies W self specs).1 j).name = (getSpec W j).name := by
  intro j
  obtain ⟨_, _, hs, ho⟩ := resolveDependencies_success W self specs hself hspecs hhe hfound
  by_cases hj : j = self
  · subst hj
    rw [hs]
  · rw [ho j hj]

theorem resolveDependencies_provides (W : List PluginSpec) (self : Nat) (specs : List Nat)
    (hself : self < W.length) (hspecs : ∀ j ∈ specs, j < W.length)
    (hhe : (getSpec W self).hasError = false)
    (hfound : ∀ d ∈ (getSpec W self).dependencies, (findSpec W specs d.name).isSome) :
    ∀ j, (getSpec (resolveDependencies W self specs).1 j).providesSpecs
      = (getSpec W j).providesSpecs
        ++ List.replicate ((resolvedList W self specs).count j) self := by
  intro j
  obtain ⟨_, _, hs, ho⟩ := resolveDependencies_success W self specs hself hspecs hhe hfound
  by_cases hj : j = self
  · subst hj
    rw [hs]
  · rw [ho j hj]

/-- C7 (amended): calling `resolveDependencies` a second time in a row with
the same argument leaves the edge sets equal as sets: the spec's
`dependencySpecs` list is exactly the list after the first call, and every
`providesSpecs` list has the same members (the second call appends a
duplicate of each edge, so the lists themselves grow — see the
counterexample). -/
theorem C7_second_resolve_preserves_edge_sets
    (W : List PluginSpec) (self : Nat) (specs : List Nat)
    (hself : self < W.length)
    (hspecs : ∀ j ∈ specs, j < W.length)
    (hfirst : (resolveDependencies W self specs).2 = true) :
    (resolveDependencies (resolveDependencies W self specs).1 self specs).2 = true
      ∧ (getSpec (resolveDependencies (resolveDependencies W self specs).1 self specs).1
            self).dependencySpecs
          = (getSpec (resolveDependencies W self specs).1 self).dependencySpecs
      ∧ ∀ j x,
          x ∈ (getSpec (resolveDependencies (resolveDependencies W self specs).1 self specs).1
            j).providesSpecs
          ↔ x ∈ (getSpec (resolveDependencies W self specs).1 j).providesSpecs := by
  obtain ⟨hhe, hfound⟩ := (resolveDependencies_true_iff W self specs hself hspecs).mp hfirst
  obtain ⟨h1t, h1len, h1self, h1other⟩ :=
    resolveDependencies_success W self specs hself hspecs hhe hfound
  have hnames1 := resolveDependencies_names W self specs hself hspecs hhe hfound
  have hprov1 := resolveDependencies_provides W self specs hself hspecs hhe hfound
  have hdeps1 : (getSpec (resolveDependencies W self specs).1 self).dependencies
      = (getSpec W self).dependencies := by
    rw [h1self]
  have hhe1 : (getSpec (resolveDependencies W self specs).1 self).hasError = false := by
    rw [h1self]
    exact hhe
  have hfind1 : ∀ nm, findSpec (resolveDependencies W self specs).1 specs nm
      = findSpec W specs nm := fun nm =>
    findSpec_congr (resolveDependencies W self specs).1 W specs nm hnames1
  have hL : resolvedList (resolveDependencies W self specs).1 self specs
      = resolvedList W self specs := by
    unfold resolvedList
    rw [hdeps1]
    exact List.filterMap_congr fun d _ => hfind1 d.name
  have hfound1 : ∀ d ∈ (getSpec (resolveDependencies W self specs).1 self).dependencies,
      (findSpec (resolveDependencies W self specs).1 specs d.name).isSome := by
    intro d hd
    rw [hfind1]
    exact hfound d (by rw [← hdeps1]; exact hd)
  have hself1 : self < (resolveDependencies W self specs).1.length := by
    rw [h1len]; exact hself
  have hspecs1 : ∀ j ∈ specs, j < (resolveDependencies W self specs).1.length := by
    intro j hj
    rw [h1len]; exact hspecs j hj
  obtain ⟨h2t, _h2len, h2self, h2other⟩ :=
    resolveDependencies_success (resolveDependencies W self specs).1 self specs
      hself1 hspecs1 hhe1 hfound1
  have hprov2 := resolveDependencies_provides (resolveDependencies W self specs).1 self specs
    hself1 hspecs1 hhe1 hfound1
  refine ⟨h2t, ?_, ?_⟩
  · rw [h2self, h1self, hL]
  · intro j x
    rw [hprov2 j, hL]
    constructor
    · intro hx
      rcases List.mem_append.mp hx with hx | hx
      · exact hx
      · obtain ⟨hcnt, hxs⟩ := List.mem_replicate.mp hx
        subst hxs
        rw [hprov1 j]
        refine List.mem_append.mpr (Or.inr ?_)
        exact List.mem_replicate.mpr ⟨hcnt, rfl⟩
    · intro hx
      exact List.mem_append.mpr (Or.inl hx)

/-- Counterexample to C7 as stated: with specs `A` and `B` where `B` depends
on `A`, the first `resolveDependencies` on `B` gives `A.providesSpecs = [B]`,
and the second appends a duplicate, so the list grows to `[B, B]` instead of
staying the same. -/
theorem C7_second_resolve_duplicates_providesSpecs :
    (getSpec (resolveDependencies
        (resolveDependencies
          [{ name := "A", state := PState.Read, enabled := true },
           { name := "B", state := PState.Read, enabled := true,
             dependencies := [{ name := "A", version := "" }] }] 1 [0, 1]).1
        1 [0, 1]).1 0).providesSpecs = [1, 1]
    ∧ (getSpec (resolveDependencies
        [{ name := "A", state := PState.Read, enabled := true },
         { name := "B", state := PState.Read, enabled := true,
           dependencies := [{ name := "A", version := "" }] }] 1 [0, 1]).1 0).providesSpecs
      = [1] := by
  constructor <;> decide

/-- Witness for C7 at the two-spec world where `B` (index 1) depends on
`A` (index 0). -/
theorem C7_second_resolve_preserves_edge_sets_witness :
    (resolveDependencies (resolveDependencies
        [{ name := "A", state := PState.Read, enabled := true },
         { name := "B", state := PState.Read, enabled := true,
           dependencies := [{ name := "A", version := "" }] }] 1 [0, 1]).1 1 [0, 1]).2 = true
    ∧ (getSpec (resolveDependencies (resolveDependencies
        [{ name := "A", state := PState.Read, enabled := true },
         { name := "B", state := PState.Read, enabled := true,
           dependencies := [{ name := "A", version := "" }] }] 1 [0, 1]).1 1 [0, 1]).1
          1).dependencySpecs
      = (getSpec (resolveDependencies
        [{ name := "A", state := PState.Read, enabled := true },
         { name := "B", state := PState.Read, enabled := true,
           dependencies := [{ name := "A", version := "" }] }] 1 [0, 1]).1 1).dependencySpecs
    ∧ (0 ∈ (getSpec (resolveDependencies (resolveDependencies
        [{ name := "A", state := PState.Read, enabled := true },
         { name := "B", state := PState.Read, enabled := true,
           dependencies := [{ name := "A", version := "" }] }] 1 [0, 1]).1 1 [0, 1]).1
          0).providesSpecs
        ↔ 0 ∈ (getSpec (resolveDependencies
        [{ name := "A", state := PState.Read, enabled := true },
         { name := "B", state := PState.Read, enabled := true,
           dependencies := [{ name := "A", version := "" }] }] 1 [0, 1]).1 0).providesSpecs) := by
  have h := C7_second_resolve_preserves_edge_sets
    [{ name := "A", state := PState.Read, enabled := true },
     { name := "B", state := PState.Read, enabled := true,
       dependencies := [{ name := "A", version := "" }] }] 1 [0, 1]
    (by decide) (by decide) (by decide)
  exact ⟨h.1, h.2.1, h.2.2 0 0⟩

end PluginLoader

namespace PluginLoader

theorem rdAll_false (specs : List Nat) :
    ∀ (order : List Nat) (W : List PluginSpec),
      (order.foldl (fun acc i =>
        ((resolveDependencies acc.1 i specs).1,
         acc.2 && (resolveDependencies acc.1 i specs).2)) (W, false)).2 = false := by
  intro order
  induction order with
  | nil => intro W; rfl
  | cons i rest ih =>
    intro W
    rw [List.foldl_cons]
    simp only [Bool.false_and]
    exact ih _

theorem rdAll_invariant (specs : List Nat) (W0 : List PluginSpec)
    (hspecs : ∀ j ∈ specs, j < W0.length) :
    ∀ (order : List Nat) (P : List Nat) (W : List PluginSpec),
      W.length = W0.length →
      (∀ j, (getSpec W j).name = (getSpec W0 j).name) →
      (∀ j, (getSpec W j).dependencies = (getSpec W0 j).dependencies) →
      (∀ j, (getSpec W j).hasError = false) →
      (∀ B, (getSpec W B).dependencySpecs
          = if B ∈ P then resolvedList W0 B specs else []) →
      (∀ A B, B ∈ (getSpec W A).providesSpecs ↔ (B ∈ P ∧ A ∈ resolvedList W0 B specs)) →
      (∀ i ∈ order, i < W0.length) →
      (∀ i ∈ order, i ∉ P) →
      order.Nodup →
      (order.foldl (fun acc i =>
          ((resolveDependencies acc.1 i specs).1,
           acc.2 && (resolveDependencies acc.1 i specs).2)) (W, true)).2 = true →
      (∀ B, (getSpec (order.foldl (fun acc i =>
            ((resolveDependencies acc.1 i specs).1,
             acc.2 && (resolveDependencies acc.1 i specs).2)) (W, true)).1 B).dependencySpecs
          = if B ∈ P ++ order then resolvedList W0 B specs else [])
        ∧ (∀ A B, B ∈ (getSpec (order.foldl (fun acc i =>
            ((resolveDependencies acc.1 i specs).1,
             acc.2 && (resolveDependencies acc.1 i specs).2)) (W, true)).1 A).providesSpecs
          ↔ (B ∈ P ++ order ∧ A ∈ resolvedList W0 B specs)) := by
  intro order
  induction order with
  | nil =>
    intro P W _hlen _hnames _hdeps _herr hP1 hP2 _horder _hdisj _hnodup _hok
    simp only [List.foldl_nil, List.append_nil]
    exact ⟨hP1, hP2⟩
  | cons i rest ih =>
    intro P W hlen hnames hdeps herr hP1 hP2 horder hdisj hnodup hok
    rw [List.foldl_cons] at hok ⊢
    have hselfW : i < W.length := by rw [hlen]; exact horder i (by simp)
    have hspecsW : ∀ j ∈ specs, j < W.length := by
      intro j hj; rw [hlen]; exact hspecs j hj
    cases hb : (resolveDependencies W i specs).2 with
    | false =>
      exfalso
      rw [hb] at hok
      simp only [Bool.and_false] at hok
      rw [rdAll_false specs rest] at hok
      exact Bool.false_ne_true hok
    | true =>
      rw [hb] at hok
      simp only [Bool.and_true] at hok ⊢
      obtain ⟨hheW, hfoundW⟩ :=
        (resolveDependencies_true_iff W i specs hselfW hspecsW).mp hb
      obtain ⟨_, hlenWi, hs, ho⟩ :=
        resolveDependencies_success W i specs hselfW hspecsW hheW hfoundW
      have hnamesWi : ∀ j, (getSpec (resolveDependencies W i specs).1 j).name
          = (getSpec W0 j).name := by
        intro j
        rw [resolveDependencies_names W i specs hselfW hspecsW hheW hfoundW j]
        exact hnames j
      have hprovWi := resolveDependencies_provides W i specs hselfW hspecsW hheW hfoundW
      have hLi : resolvedList W i specs = resolvedList W0 i specs := by
        unfold resolvedList
        rw [hdeps i]
        exact List.filterMap_congr fun d _ =>
          findSpec_congr W W0 specs d.name hnames
      have hdepsWi : ∀ j, (getSpec (resolveDependencies W i specs).1 j).dependencies
          = (getSpec W0 j).dependencies := by
        intro j
        by_cases hj : j = i
        · subst hj
          rw [hs]
          exact hdeps j
        · rw [ho j hj]
          exact hdeps j
      have herrWi : ∀ j, (getSpec (resolveDependencies W i specs).1 j).hasError = false := by
        intro j
        by_cases hj : j = i
        · subst hj
          rw [hs]
          exact herr j
        · rw [ho j hj]
          exact herr j
      have hP1Wi : ∀ B, (getSpec (resolveDependencies W i specs).1 B).dependencySpecs
          = if B ∈ P ++ [i] then resolvedList W0 B specs else [] := by
        intro B
        by_cases hB : B = i
        · subst hB
          rw [hs]
          have hmem : B ∈ P ++ [B] := by simp
          rw [if_pos hmem]
          exact hLi
        · rw [ho B hB, hP1 B]
          have hiff : B ∈ P ++ [i] ↔ B ∈ P := by simp [hB]
          by_cases hBP : B ∈ P
          · rw [if_pos hBP, if_pos (hiff.mpr hBP)]
          · rw [if_neg hBP, if_neg (fun hmem => hBP (hiff.mp hmem))]
      have hP2Wi : ∀ A B, B ∈ (getSpec (resolveDependencies W i specs).1 A).providesSpecs
          ↔ (B ∈ P ++ [i] ∧ A ∈ resolvedList W0 B specs) := by
        intro A B
        rw [hprovWi A, List.mem_append, hP2 A B, List.mem_replicate, hLi]
        constructor
        · rintro (⟨hBP, hA⟩ | ⟨hcnt, hBi⟩)
          · exact ⟨by simp [hBP], hA⟩
          · subst hBi
            exact ⟨by simp, List.count_pos_iff_mem.mp (Nat.pos_of_ne_zero hcnt)⟩
        · rintro ⟨hBPi, hA⟩
          rcases List.mem_append.mp hBPi with hBP | hBi
          · exact Or.inl ⟨hBP, hA⟩
          · have hBi2 : B = i := by simpa using hBi
            subst hBi2
            refine Or.inr ⟨?_, rfl⟩
            intro hzero
            rw [List.count_eq_zero] at hzero
            exact hzero hA
      have hrest := ih (P ++ [i]) (resolveDependencies W i specs).1
        (hlenWi.trans hlen) hnamesWi hdepsWi herrWi hP1Wi hP2Wi
        (fun j hj => horder j (by simp [hj]))
        (fun j hj => by
          intro hmem
          rcases List.mem_append.mp hmem with hjP | hji
          · exact hdisj j (by simp [hj]) hjP
          · have hji2 : j = i := by simpa using hji
            subst hji2
            exact (List.nodup_cons.mp hnodup).1 hj)
        (List.nodup_cons.mp hnodup).2
        hok
      have happ : (P ++ [i]) ++ rest = P ++ i :: rest := by simp
      rw [happ] at hrest
      exact hrest

end PluginLoader

namespace PluginLoader

/-- C2 (amended): after `resolveDependencies` has been invoked on every spec
of a freshly read set (clean edge lists, no errors) and every invocation
succeeded, the forward and reverse edges are symmetric: for all specs `A`
and `B` of the set, `A ∈ B.dependencySpecs ↔ B ∈ A.providesSpecs`.  (On a
run where some spec's resolution failed because of an unresolved
dependency, the symmetry is broken — see the counterexample.) -/
theorem C2_edge_symmetry_after_successful_resolve
    (W0 : List PluginSpec) (order specs : List Nat)
    (hclean : ∀ j, (getSpec W0 j).dependencySpecs = []
        ∧ (getSpec W0 j).providesSpecs = []
        ∧ (getSpec W0 j).hasError = false)
    (hspecs : ∀ j ∈ specs, j < W0.length)
    (horder : ∀ i ∈ order, i < W0.length)
    (hnodup : order.Nodup)
    (hcover : ∀ B, B < W0.length → B ∈ order)
    (hok : (PluginManagerPrivate.resolveDependenciesAll W0 order specs).2 = true) :
    ∀ A B, A < W0.length → B < W0.length →
      (A ∈ (getSpec (PluginManagerPrivate.resolveDependenciesAll W0 order specs).1
            B).dependencySpecs
        ↔ B ∈ (getSpec (PluginManagerPrivate.resolveDependenciesAll W0 order specs).1
            A).providesSpecs) := by
  have hunf : PluginManagerPrivate.resolveDependenciesAll W0 order specs
      = order.foldl (fun acc i =>
          ((resolveDependencies acc.1 i specs).1,
           acc.2 && (resolveDependencies acc.1 i specs).2)) (W0, true) := rfl
  rw [hunf] at hok ⊢
  obtain ⟨hP1, hP2⟩ := rdAll_invariant specs W0 hspecs order [] W0 rfl (fun _ => rfl)
    (fun _ => rfl) (fun j => (hclean j).2.2)
    (fun B => by simp [(hclean B).1])
    (fun A B => by simp [(hclean A).2.1])
    horder (fun i _ => List.not_mem_nil i) hnodup hok
  intro A B _hA hB
  rw [hP1 B, hP2 A B]
  have hBorder : B ∈ order := hcover B hB
  simp [hBorder]

/-- Counterexample to C2 as stated: spec `B` declares dependencies on `A`
and on a plugin named `Missing` that is not in the set.  The resolution of
`B` fails, but it has already appended `B` to `A.providesSpecs`, while
`B.dependencySpecs` is never assigned — so after running
`resolveDependencies` on every spec, `B ∈ A.providesSpecs` holds while
`A ∈ B.dependencySpecs` does not. -/
theorem C2_edge_symmetry_fails_on_unresolved_dependency :
    ¬ (0 ∈ (getSpec (PluginManagerPrivate.resolveDependenciesAll
          [{ name := "A", state := PState.Read, enabled := true },
           { name := "B", state := PState.Read, enabled := true,
             dependencies := [{ name := "A", version := "" },
                              { name := "Missing", version := "" }] }]
          [0, 1] [0, 1]).1 1).dependencySpecs
        ↔ 1 ∈ (getSpec (PluginManagerPrivate.resolveDependenciesAll
          [{ name := "A", state := PState.Read, enabled := true },
           { name := "B", state := PState.Read, enabled := true,
             dependencies := [{ name := "A", version := "" },
                              { name := "Missing", version := "" }] }]
          [0, 1] [0, 1]).1 0).providesSpecs) := by
  decide

/-- Witness for C2 at the two-spec world where `B` (index 1) depends on
`A` (index 0) and both resolutions succeed. -/
theorem C2_edge_symmetry_after_successful_resolve_witness :
    (0 ∈ (getSpec (PluginManagerPrivate.resolveDependenciesAll
          [{ name := "A", state := PState.Read, enabled := true },
           { name := "B", state := PState.Read, enabled := true,
             dependencies := [{ name := "A", version := "" }] }]
          [0, 1] [0, 1]).1 1).dependencySpecs
      ↔ 1 ∈ (getSpec (PluginManagerPrivate.resolveDependenciesAll
          [{ name := "A", state := PState.Read, enabled := true },
           { name := "B", state := PState.Read, enabled := true,
             dependencies := [{ name := "A", version := "" }] }]
          [0, 1] [0, 1]).1 0).providesSpecs) :=
  C2_edge_symmetry_after_successful_resolve
    [{ name := "A", state := PState.Read, enabled := true },
     { name := "B", state := PState.Read, enabled := true,
       dependencies := [{ name := "A", version := "" }] }]
    [0, 1] [0, 1]
    (by
      intro j
      refine ⟨?_, ?_, ?_⟩ <;> rcases j with _ | _ | j <;> rfl)
    (by decide) (by decide) (by decide)
    (by
      intro B hB
      simp only [List.length_cons, List.length_nil] at hB
      simp only [List.mem_cons, List.not_mem_nil, or_false]
      omega)
    (by decide)
    0 1 (by decide) (by decide)

end PluginLoader

namespace PluginLoader

namespace PluginManagerPrivate

/-- Across the load-queue walk of `initializePlugins`, if no queued plugin
requests application shutdown then every completed run reaches the final
notification, which is emitted exactly once. -/
theorem initializePluginsLoop_emit_once (fuel : Nat) (beh : InitBehavior)
    (queue : List Nat) :
    ∀ (world : List PluginSpec) (b : Bool)
      (r : List PluginSpec × Bool × String × Nat),
      queue.all (fun i => !beh.shutdownRequested i) = true →
      initializePluginsLoop fuel beh queue world b = some r →
      r.2.2.2 = 1 := by
  induction queue with
  | nil =>
    intro world b r _ h
    simp only [initializePluginsLoop] at h
    cases h
    rfl
  | cons i rest ih =>
    intro world b r hnosd h
    simp only [List.all_cons, Bool.and_eq_true, Bool.not_eq_true'] at hnosd
    simp only [initializePluginsLoop] at h
    split at h
    · split at h
      · exact ih _ _ _ hnosd.2 h
      · split at h
        · next hsd =>
            rw [hnosd.1] at hsd
            cases hsd
        · split at h
          · cases h
          · split at h
            · cases h
            · exact ih _ _ _ hnosd.2 h
    · exact ih _ _ _ hnosd.2 h

/-- C6 (amended): an invocation of `PluginManager::initializePlugins` that
returns emits the `pluginsInitialized` notification exactly once — provided
no failing plugin requests application shutdown.  (An invocation that
returns early because `isShutdownRequested()` held emits it zero times, not
once — see the counterexample.) -/
theorem C6_pluginsInitialized_emitted_once_unless_shutdown
    (fuel : Nat) (world : List PluginSpec) (queue : List Nat) (beh : InitBehavior)
    (hnosd : queue.all (fun i => !beh.shutdownRequested i) = true)
    (r : List PluginSpec × Bool × String × Nat)
    (h : initializePlugins fuel world queue beh = some r) :
    r.2.2.2 = 1 :=
  initializePluginsLoop_emit_once fuel beh queue world true r hnosd h

/-- Counterexample to C6 as stated: one loaded plugin whose `initialize`
fails and which then requests application shutdown.  `initializePlugins`
takes the early `return false` before the `emit q->pluginsInitialized()`
statement, so the notification is emitted zero times, not once. -/
theorem C6_no_emission_on_shutdown_requested_early_return :
    (initializePlugins 4
      [{ name := "A", state := PState.Loaded, enabled := true }] [0]
      ⟨fun _ => false, fun _ => true⟩).map (fun r => r.2.2.2) = some 0 := by
  decide

/-- Witness for the amended C6 at a one-plugin queue whose initialization
succeeds. -/
theorem C6_pluginsInitialized_emitted_once_unless_shutdown_witness :
    (List.all [0] (fun i =>
        !(InitBehavior.mk (fun _ => true) (fun _ => false)).shutdownRequested i)
      = true)
    ∧ (([({ name := "A", state := PState.Initialized, enabled := true } :
          PluginSpec)], true, "", (1 : Nat)) :
          List PluginSpec × Bool × String × Nat).2.2.2 = 1 :=
  ⟨by decide,
   C6_pluginsInitialized_emitted_once_unless_shutdown 4
     [{ name := "A", state := PState.Loaded, enabled := true }] [0]
     ⟨fun _ => true, fun _ => false⟩ (by decide)
     ([{ name := "A", state := PState.Initialized, enabled := true }], true, "", 1)
     (by decide)⟩

end PluginManagerPrivate

end PluginLoader

namespace PluginLoader

theorem flagOnly_refl (W : List PluginSpec) : flagOnly W W := ⟨rfl, fun _ => rfl⟩

theorem flagOnly_deps {W V : List PluginSpec} (h : flagOnly W V) (j : Nat) :
    (getSpec V j).dependencySpecs = (getSpec W j).dependencySpecs := by
  rw [h.2 j]

theorem flagOnly_provides {W V : List PluginSpec} (h : flagOnly W V) (j : Nat) :
    (getSpec V j).providesSpecs = (getSpec W j).providesSpecs := by
  rw [h.2 j]

theorem flagOnly_hasError {W V : List PluginSpec} (h : flagOnly W V) (j : Nat) :
    (getSpec V j).hasError = (getSpec W j).hasError := by
  rw [h.2 j]

theorem flagOnly_initFailed {W V : List PluginSpec} (h : flagOnly W V) (j : Nat) :
    (getSpec V j).initializationFailed = (getSpec W j).initializationFailed := by
  rw [h.2 j]

theorem flagOnly_circ {W V : List PluginSpec} (h : flagOnly W V) (j : Nat) :
    (getSpec V j).circularDependencyDetected = (getSpec W j).circularDependencyDetected := by
  rw [h.2 j]

theorem flagOnly_enabled {W V : List PluginSpec} (h : flagOnly W V) (j : Nat) :
    (getSpec V j).isEnabled = (getSpec W j).isEnabled := by
  rw [PluginSpec.isEnabled, PluginSpec.isEnabled, h.2 j]

theorem flagOnly_update {W V : List PluginSpec} (h : flagOnly W V) (i : Nat) (b : Bool) :
    flagOnly W (updateSpec V i (fun s => { s with indirectlyDisabled := b })) := by
  refine ⟨by rw [length_updateSpec]; exact h.1, ?_⟩
  intro j
  rw [getSpec_updateSpec]
  by_cases hj : j = i ∧ i < V.length
  · rw [if_pos hj]
    obtain ⟨rfl, _⟩ := hj
    rw [h.2 j]
  · rw [if_neg hj]
    exact h.2 j

theorem rid_unfold (fuel : Nat) (V : List PluginSpec) (stack : List Nat) (t : Nat)
    (hc : (getSpec V t).circularDependencyDetected = false)
    (hts : t ∉ stack) :
    resolveIndirectlyDisabled (fuel + 1) V stack t true =
      (getSpec V t).providesSpecs.foldlM
        (fun w p => resolveIndirectlyDisabled fuel w (stack ++ [t]) p true)
        (if (getSpec V t).dependencySpecs.any
              (badDependency (updateSpec V t (fun s => { s with indirectlyDisabled := false })))
          then updateSpec (updateSpec V t (fun s => { s with indirectlyDisabled := false })) t
                 (fun s => { s with indirectlyDisabled := true })
          else updateSpec V t (fun s => { s with indirectlyDisabled := false })) := by
  simp only [resolveIndirectlyDisabled, hc, hts, Bool.false_eq_true, if_false,
    Bool.not_true, Bool.false_and, Bool.or_true, if_true, ite_false, ite_true]

end PluginLoader

namespace PluginLoader

/-- The central induction for `resolveIndirectlyDisabled` with
`forceResolve = true` on an acyclic fully resolved world: the call
succeeds, touches only `indirectlyDisabled` flags, keeps every set flag
justified by a dependency path to the disabled spec, preserves every
anchored set, and anchors the call target together with any chain of
`providesSpecs` edges hanging off it whenever the target has a dependency
on `X` or on an anchored spec. -/
theorem rid_master (W : List PluginSpec) (X : Nat) (ctx : RidContext W X) :
    ∀ (fuel : Nat) (stack : List Nat) (t : Nat) (V : List PluginSpec),
      flagOnly W V → SoundFlags W X V →
      t < W.length →
      (∀ s ∈ stack, s < W.length) → stack.Nodup →
      (∀ s ∈ stack, reaches W t s) →
      W.length + 1 ≤ fuel + stack.length →
      ∃ V', resolveIndirectlyDisabled fuel V stack t true = some V' ∧
        flagOnly W V' ∧ SoundFlags W X V' ∧
        (∀ S, Anchored W X V S → Anchored W X V' S) ∧
        (∀ S c, Anchored W X V S → ProvChain W t c →
          (∃ d ∈ (getSpec W t).dependencySpecs, d = X ∨ d ∈ S) →
          Anchored W X V' (S ++ t :: c)) := by
  intro fuel
  induction fuel with
  | zero =>
    intro stack t V _ _ _ hsr hsn _ hfuel
    exfalso
    have h1 : stack.toFinset.card = stack.length := List.toFinset_card_of_nodup hsn
    have h2 : stack.toFinset ⊆ Finset.range W.length := by
      intro x hx
      simp only [List.mem_toFinset] at hx
      exact Finset.mem_range.mpr (hsr x hx)
    have h3 : stack.length ≤ W.length := by
      calc stack.length = stack.toFinset.card := h1.symm
        _ ≤ (Finset.range W.length).card := Finset.card_le_card h2
        _ = W.length := Finset.card_range _
    omega
  | succ fuel ih =>
    intro stack t V hfl hsound ht hsr hsn hchain hfuel
    have htns : t ∉ stack := fun hm => ctx.hacyc t ht (hchain t hm)
    have hcV : (getSpec V t).circularDependencyDetected = false := by
      rw [flagOnly_circ hfl]
      exact ctx.hcirc t
    have hVlen : V.length = W.length := hfl.1
    have hfl1 : flagOnly W
        (updateSpec V t (fun s => { s with indirectlyDisabled := false })) :=
      flagOnly_update hfl t false
    have hflagW1 : ∀ j,
        (getSpec (updateSpec V t (fun s => { s with indirectlyDisabled := false }))
          j).indirectlyDisabled
        = if j = t then false else (getSpec V j).indirectlyDisabled := by
      intro j
      rw [getSpec_updateSpec]
      by_cases hj : j = t
      · rw [if_pos ⟨hj, hVlen ▸ ht⟩, if_pos hj]
      · rw [if_neg (fun hc => hj hc.1), if_neg hj]
    have hbadc : ∀ d, d ∈ (getSpec W t).dependencySpecs →
        (badDependency
            (updateSpec V t (fun s => { s with indirectlyDisabled := false })) d = true
          ↔ (d = X ∨ (getSpec V d).indirectlyDisabled = true)) := by
      intro d hd
      have hdn : d < W.length := ctx.hdr t d hd
      have hdt : d ≠ t := by
        intro he
        exact ctx.hacyc t ht (Relation.TransGen.single (he ▸ hd))
      simp only [badDependency]
      rw [flagOnly_hasError hfl1, flagOnly_enabled hfl1, flagOnly_initFailed hfl1,
        hflagW1 d, if_neg hdt, ctx.herr d, ctx.hinitf d]
      by_cases hdX : d = X
      · subst hdX
        rw [ctx.henX]
        simp
      · rw [ctx.hen d hdn hdX]
        simp [hdX]
    have hfold : ∀ (ps : List Nat), (∀ p ∈ ps, p ∈ (getSpec W t).providesSpecs) →
        ∀ (V0 : List PluginSpec), flagOnly W V0 → SoundFlags W X V0 →
        ∃ V', List.foldlM
            (fun w p => resolveIndirectlyDisabled fuel w (stack ++ [t]) p true) V0 ps
            = some V' ∧
          flagOnly W V' ∧ SoundFlags W X V' ∧
          (∀ S, Anchored W X V0 S → Anchored W X V' S) ∧
          (∀ S p c, p ∈ ps → ProvChain W p c → Anchored W X V0 S →
            (∃ d ∈ (getSpec W p).dependencySpecs, d = X ∨ d ∈ S) →
            Anchored W X V' (S ++ p :: c)) := by
      intro ps
      induction ps with
      | nil =>
        intro _ V0 h1 h2
        exact ⟨V0, rfl, h1, h2, fun S hS => hS,
          fun S p c hp => absurd hp (List.not_mem_nil p)⟩
      | cons p0 rest ihps =>
        intro hps V0 h1 h2
        have hp0 : p0 ∈ (getSpec W t).providesSpecs := hps p0 (List.mem_cons_self p0 rest)
        have hp0n : p0 < W.length := ctx.hpr t p0 hp0
        have hdepp0 : t ∈ (getSpec W p0).dependencySpecs :=
          (ctx.hsym t p0 ht hp0n).mpr hp0
        have hsr' : ∀ s ∈ stack ++ [t], s < W.length := by
          intro s hs
          rcases List.mem_append.mp hs with h | h
          · exact hsr s h
          · rw [List.mem_singleton] at h
            exact h ▸ ht
        have hsn' : (stack ++ [t]).Nodup := by
          rw [List.nodup_append]
          refine ⟨hsn, List.nodup_singleton t, ?_⟩
          intro a ha hat
          rw [List.mem_singleton] at hat
          exact htns (hat ▸ ha)
        have hchain' : ∀ s ∈ stack ++ [t], reaches W p0 s := by
          intro s hs
          rcases List.mem_append.mp hs with h | h
          · exact Relation.TransGen.head hdepp0 (hchain s h)
          · rw [List.mem_singleton] at h
            exact h ▸ Relation.TransGen.single hdepp0
        have hfuel' : W.length + 1 ≤ fuel + (stack ++ [t]).length := by
          rw [List.length_append, List.length_cons, List.length_nil]
          omega
        obtain ⟨V1, he1, hf1, hs1, hpre1, hgrow1⟩ :=
          ih (stack ++ [t]) p0 V0 h1 h2 hp0n hsr' hsn' hchain' hfuel'
        obtain ⟨V2, he2, hf2, hs2, hpre2, hgrow2⟩ :=
          ihps (fun p hp => hps p (List.mem_cons_of_mem p0 hp)) V1 hf1 hs1
        refine ⟨V2, ?_, hf2, hs2, ?_, ?_⟩
        · rw [List.foldlM_cons, he1]
          exact he2
        · exact fun S hS => hpre2 S (hpre1 S hS)
        · intro S p c hp hchainc hanch hjust
          rcases List.mem_cons.mp hp with rfl | hp'
          · exact hpre2 _ (hgrow1 S c hanch hchainc hjust)
          · exact hgrow2 S p c hp' hchainc (hpre1 S hanch) hjust
    rw [rid_unfold fuel V stack t hcV htns]
    cases hscan : (getSpec V t).dependencySpecs.any
        (badDependency (updateSpec V t (fun s => { s with indirectlyDisabled := false }))) with
    | false =>
      have hno : ∀ S, Anchored W X V S →
          (∃ d ∈ (getSpec W t).dependencySpecs, d = X ∨ d ∈ S) → False := by
        intro S hanch ⟨d, hd, hXS⟩
        have hbad : badDependency
            (updateSpec V t (fun s => { s with indirectlyDisabled := false })) d = true :=
          (hbadc d hd).mpr (hXS.imp id (fun hdS => (hanch d hdS).1))
        have hany : (getSpec V t).dependencySpecs.any
            (badDependency (updateSpec V t (fun s => { s with indirectlyDisabled := false })))
            = true :=
          List.any_eq_true.mpr ⟨d, (flagOnly_deps hfl t).symm ▸ hd, hbad⟩
        rw [hscan] at hany
        cases hany
      have hsound1 : SoundFlags W X
          (updateSpec V t (fun s => { s with indirectlyDisabled := false })) := by
        intro j hj
        rw [hflagW1 j] at hj
        by_cases hjt : j = t
        · rw [if_pos hjt] at hj
          cases hj
        · rw [if_neg hjt] at hj
          exact hsound j hj
      have hpre : ∀ S, Anchored W X V S → Anchored W X
          (updateSpec V t (fun s => { s with indirectlyDisabled := false })) S := by
        intro S hanch j hj
        by_cases hjt : j = t
        · exact absurd (hanch j hj).2 (fun hx => hno S hanch (hjt ▸ hx))
        · exact ⟨by rw [hflagW1 j, if_neg hjt]; exact (hanch j hj).1, (hanch j hj).2⟩
      obtain ⟨V', heq, hfV, hsV, hpreV, hgrowV⟩ :=
        hfold (getSpec V t).providesSpecs
          (fun p hp => (flagOnly_provides hfl t) ▸ hp)
          (updateSpec V t (fun s => { s with indirectlyDisabled := false })) hfl1 hsound1
      refine ⟨V', ?_, hfV, hsV, ?_, ?_⟩
      · simp only [Bool.false_eq_true, if_false]
        exact heq
      · exact fun S hS => hpreV S (hpre S hS)
      · intro S c hanch _ hjust
        exact (hno S hanch hjust).elim
    | true =>
      have hreach_t : reaches W t X := by
        obtain ⟨d, hd, hbad⟩ := List.any_eq_true.mp hscan
        rw [flagOnly_deps hfl t] at hd
        rcases (hbadc d hd).mp hbad with rfl | hflagd
        · exact Relation.TransGen.single hd
        · exact Relation.TransGen.head hd (hsound d hflagd)
      have hfl2 : flagOnly W
          (updateSpec (updateSpec V t (fun s => { s with indirectlyDisabled := false })) t
            (fun s => { s with indirectlyDisabled := true })) :=
        flagOnly_update hfl1 t true
      have hflagW2 : ∀ j,
          (getSpec (updateSpec
              (updateSpec V t (fun s => { s with indirectlyDisabled := false })) t
              (fun s => { s with indirectlyDisabled := true })) j).indirectlyDisabled
          = if j = t then true else (getSpec V j).indirectlyDisabled := by
        intro j
        rw [getSpec_updateSpec]
        by_cases hj : j = t
        · rw [if_pos ⟨hj, by rw [length_updateSpec]; exact hVlen ▸ ht⟩, if_pos hj]
        · rw [if_neg (fun hc => hj hc.1), if_neg hj, hflagW1 j, if_neg hj]
      have hsound2 : SoundFlags W X
          (updateSpec (updateSpec V t (fun s => { s with indirectlyDisabled := false })) t
            (fun s => { s with indirectlyDisabled := true })) := by
        intro j hj
        rw [hflagW2 j] at hj
        by_cases hjt : j = t
        · exact hjt ▸ hreach_t
        · rw [if_neg hjt] at hj
          exact hsound j hj
      have hpre : ∀ S, Anchored W X V S → Anchored W X
          (updateSpec (updateSpec V t (fun s => { s with indirectlyDisabled := false })) t
            (fun s => { s with indirectlyDisabled := true })) S := by
        intro S hanch j hj
        refine ⟨?_, (hanch j hj).2⟩
        rw [hflagW2 j]
        by_cases hjt : j = t
        · rw [if_pos hjt]
        · rw [if_neg hjt]
          exact (hanch j hj).1
      have hanchT : ∀ S, Anchored W X V S →
          (∃ d ∈ (getSpec W t).dependencySpecs, d = X ∨ d ∈ S) →
          Anchored W X
            (updateSpec (updateSpec V t (fun s => { s with indirectlyDisabled := false })) t
              (fun s => { s with indirectlyDisabled := true })) (S ++ [t]) := by
        intro S hanch hjust j hj
        rcases List.mem_append.mp hj with hjS | hjt
        · refine ⟨(hpre S hanch j hjS).1, ?_⟩
          obtain ⟨d, hd, hdX⟩ := (hanch j hjS).2
          exact ⟨d, hd, hdX.imp id (List.mem_append_left [t])⟩
        · rw [List.mem_singleton] at hjt
          refine ⟨by rw [hflagW2 j, if_pos hjt], ?_⟩
          rw [hjt]
          obtain ⟨d, hd, hdX⟩ := hjust
          exact ⟨d, hd, hdX.imp id (List.mem_append_left [t])⟩
      obtain ⟨V', heq, hfV, hsV, hpreV, hgrowV⟩ :=
        hfold (getSpec V t).providesSpecs
          (fun p hp => (flagOnly_provides hfl t) ▸ hp)
          (updateSpec (updateSpec V t (fun s => { s with indirectlyDisabled := false })) t
            (fun s => { s with indirectlyDisabled := true })) hfl2 hsound2
      refine ⟨V', ?_, hfV, hsV, ?_, ?_⟩
      · simp only [if_true]
        exact heq
      · exact fun S hS => hpreV S (hpre S hS)
      · intro S c hanch hchainc hjust
        cases c with
        | nil =>
          exact hpreV (S ++ [t]) (hanchT S hanch hjust)
        | cons p rest =>
          have hpprov : p ∈ (getSpec W t).providesSpecs := hchainc.1
          have hppn : p < W.length := ctx.hpr t p hpprov
          have hres := hgrowV (S ++ [t]) p rest
            ((flagOnly_provides hfl t).symm ▸ hpprov) hchainc.2
            (hanchT S hanch hjust)
            ⟨t, (ctx.hsym t p ht hppn).mpr hpprov,
              Or.inr (List.mem_append_right S (List.mem_singleton.mpr rfl))⟩
          have hlist : (S ++ [t]) ++ p :: rest = S ++ t :: p :: rest := by
            simp
          exact hlist ▸ hres

end PluginLoader

namespace PluginLoader

/-- Running `resolveIndirectlyDisabled(true)` over a queue of specs (the
second loop of `PluginManagerPrivate::resolveDependencies`) succeeds and
accumulates the per-call guarantees of `rid_master`. -/
theorem ridAll_run (W : List PluginSpec) (X : Nat) (ctx : RidContext W X)
    (fuel : Nat) (hfuel : W.length + 1 ≤ fuel) :
    ∀ (ord : List Nat) (V : List PluginSpec), flagOnly W V → SoundFlags W X V →
      (∀ i ∈ ord, i < W.length) →
      ∃ V', PluginManagerPrivate.resolveIndirectlyDisabledAll fuel V ord = some V' ∧
        flagOnly W V' ∧ SoundFlags W X V' ∧
        (∀ S, Anchored W X V S → Anchored W X V' S) ∧
        (∀ S t c, t ∈ ord → ProvChain W t c → Anchored W X V S →
          (∃ d ∈ (getSpec W t).dependencySpecs, d = X ∨ d ∈ S) →
          Anchored W X V' (S ++ t :: c)) := by
  intro ord
  induction ord with
  | nil =>
    intro V h1 h2 _
    exact ⟨V, rfl, h1, h2, fun S hS => hS,
      fun S t c ht => absurd ht (List.not_mem_nil t)⟩
  | cons i0 rest ihord =>
    intro V h1 h2 hord
    have hi0 : i0 < W.length := hord i0 (List.mem_cons_self i0 rest)
    obtain ⟨V1, he1, hf1, hs1, hpre1, hgrow1⟩ :=
      rid_master W X ctx fuel [] i0 V h1 h2 hi0
        (fun s hs => absurd hs (List.not_mem_nil s)) List.nodup_nil
        (fun s hs => absurd hs (List.not_mem_nil s))
        (by rw [List.length_nil]; omega)
    obtain ⟨V2, he2, hf2, hs2, hpre2, hgrow2⟩ :=
      ihord V1 hf1 hs1 (fun i hi => hord i (List.mem_cons_of_mem i0 hi))
    refine ⟨V2, ?_, hf2, hs2, fun S hS => hpre2 S (hpre1 S hS), ?_⟩
    · simp only [PluginManagerPrivate.resolveIndirectlyDisabledAll, he1]
      exact he2
    · intro S t c htmem hchainc hanch hjust
      rcases List.mem_cons.mp htmem with rfl | ht'
      · exact hpre2 _ (hgrow1 S c hanch hchainc hjust)
      · exact hgrow2 S t c ht' hchainc (hpre1 S hanch) hjust

/-- Walking a dependency path backwards yields a `providesSpecs` chain: if
`a` reaches `b` through zero or more dependency edges then some chain of
provider edges starts at `b` and ends at `a`. -/
theorem rid_chain_of_path (W : List PluginSpec) (X : Nat) (ctx : RidContext W X)
    (a : Nat) (han : a < W.length) :
    ∀ b, Relation.ReflTransGen (dependsOn W) a b →
      b < W.length ∧ ∃ c, ProvChainEnd W b c a := by
  intro b h
  induction h with
  | refl => exact ⟨han, [], rfl⟩
  | tail hab hbc ih =>
    obtain ⟨hmn, c, hc⟩ := ih
    exact ⟨ctx.hdr _ _ hbc, _ :: c,
      (ctx.hsym _ _ (ctx.hdr _ _ hbc) hmn).mp hbc, hc⟩

theorem provChainEnd_mem (W : List PluginSpec) :
    ∀ (c : List Nat) (t e : Nat), ProvChainEnd W t c e → e ∈ t :: c := by
  intro c
  induction c with
  | nil =>
    intro t e h
    exact List.mem_singleton.mpr h.symm
  | cons p rest ihc =>
    intro t e h
    exact List.mem_cons_of_mem t (ihc p e h.2)

theorem provChainEnd_chain (W : List PluginSpec) :
    ∀ (c : List Nat) (t e : Nat), ProvChainEnd W t c e → ProvChain W t c := by
  intro c
  induction c with
  | nil => intro t e _; trivial
  | cons p rest ihc => intro t e h; exact ⟨h.1, ihc p e h.2⟩

/-- C3: on an acyclic, fully resolved, error-free spec set in which exactly
the spec `X` has been disabled (and no `indirectlyDisabled` flag is set
yet), running `resolveIndirectlyDisabled` with `force = true` over the
whole set makes `indirectlyDisabled` true exactly for the transitive
dependents of `X` — every spec reaching `X` through `dependencySpecs`
edges — and leaves the flag of every other spec unchanged. -/
theorem C3_force_resolve_disables_exactly_transitive_dependents
    (W : List PluginSpec) (X : Nat) (ctx : RidContext W X)
    (order : List Nat) (fuel : Nat)
    (horder : ∀ i ∈ order, i < W.length)
    (hcover : ∀ j, j < W.length → j ∈ order)
    (hfuel : W.length + 1 ≤ fuel) :
    ∃ V', PluginManagerPrivate.resolveIndirectlyDisabledAll fuel W order = some V' ∧
      ∀ j, j < W.length →
        (((getSpec V' j).indirectlyDisabled = true ↔ reaches W j X) ∧
          (¬ reaches W j X →
            (getSpec V' j).indirectlyDisabled = (getSpec W j).indirectlyDisabled)) := by
  have hsound0 : SoundFlags W X W := by
    intro j hj
    rw [ctx.hflag j] at hj
    cases hj
  obtain ⟨V', heq, hfV, hsV, hpreV, hgrowV⟩ :=
    ridAll_run W X ctx fuel hfuel order W (flagOnly_refl W) hsound0 horder
  refine ⟨V', heq, ?_⟩
  intro j hj
  have hunch : ¬ reaches W j X →
      (getSpec V' j).indirectlyDisabled = (getSpec W j).indirectlyDisabled := by
    intro hnr
    rw [ctx.hflag j]
    cases hb : (getSpec V' j).indirectlyDisabled
    · rfl
    · exact absurd (hsV j hb) hnr
  refine ⟨⟨fun hflag => hsV j hflag, ?_⟩, hunch⟩
  intro hreach
  obtain ⟨b, hrefl, hlast⟩ := Relation.TransGen.tail'_iff.mp hreach
  obtain ⟨hbn, c, hc⟩ := rid_chain_of_path W X ctx j hj b hrefl
  have hanch := hgrowV [] b c (hcover b hbn) (provChainEnd_chain W c b j hc)
    (fun x hx => absurd hx (List.not_mem_nil x))
    ⟨X, hlast, Or.inl rfl⟩
  exact (hanch j (provChainEnd_mem W c b j hc)).1

end PluginLoader

namespace PluginLoader

/-- Witness for C3 on a three-spec world: spec 0 is disabled, spec 1
depends on it (and is its provider target), spec 2 is unrelated. -/
theorem C3_force_resolve_disables_exactly_transitive_dependents_witness :
    ∃ V', PluginManagerPrivate.resolveIndirectlyDisabledAll 4
        [{ name := "X0", enabled := false, providesSpecs := [1], state := PState.Resolved },
         { name := "B", enabled := true, dependencySpecs := [0], state := PState.Resolved },
         { name := "C", enabled := true, state := PState.Resolved }]
        [0, 1, 2] = some V' ∧
      ∀ j, j <
        ([{ name := "X0", enabled := false, providesSpecs := [1], state := PState.Resolved },
          { name := "B", enabled := true, dependencySpecs := [0], state := PState.Resolved },
          { name := "C", enabled := true, state := PState.Resolved }] : List PluginSpec).length →
        (((getSpec V' j).indirectlyDisabled = true ↔
            reaches
              [{ name := "X0", enabled := false, providesSpecs := [1], state := PState.Resolved },
               { name := "B", enabled := true, dependencySpecs := [0], state := PState.Resolved },
               { name := "C", enabled := true, state := PState.Resolved }] j 0) ∧
          (¬ reaches
              [{ name := "X0", enabled := false, providesSpecs := [1], state := PState.Resolved },
               { name := "B", enabled := true, dependencySpecs := [0], state := PState.Resolved },
               { name := "C", enabled := true, state := PState.Resolved }] j 0 →
            (getSpec V' j).indirectlyDisabled =
              (getSpec
                [{ name := "X0", enabled := false, providesSpecs := [1], state := PState.Resolved },
                 { name := "B", enabled := true, dependencySpecs := [0], state := PState.Resolved },
                 { name := "C", enabled := true, state := PState.Resolved }]
                j).indirectlyDisabled)) :=
  C3_force_resolve_disables_exactly_transitive_dependents
    [{ name := "X0", enabled := false, providesSpecs := [1], state := PState.Resolved },
     { name := "B", enabled := true, dependencySpecs := [0], state := PState.Resolved },
     { name := "C", enabled := true, state := PState.Resolved }] 0
    { hX := by decide
      hflag := by intro j; rcases j with _ | _ | _ | j <;> rfl
      hcirc := by intro j; rcases j with _ | _ | _ | j <;> rfl
      herr := by intro j; rcases j with _ | _ | _ | j <;> rfl
      hinitf := by intro j; rcases j with _ | _ | _ | j <;> rfl
      henX := by decide
      hen := by
        intro j hj hne
        simp only [List.length_cons, List.length_nil] at hj
        rcases j with _ | _ | _ | j
        · exact absurd rfl hne
        · rfl
        · rfl
        · omega
      hdr := by
        intro j d hd
        rcases j with _ | _ | _ | j
        · cases hd
        · have hd2 : d ∈ ([0] : List Nat) := hd
          rw [List.mem_singleton] at hd2
          rw [hd2]
          decide
        · cases hd
        · cases hd
      hpr := by
        intro j p hp
        rcases j with _ | _ | _ | j
        · have hp2 : p ∈ ([1] : List Nat) := hp
          rw [List.mem_singleton] at hp2
          rw [hp2]
          decide
        · cases hp
        · cases hp
        · cases hp
      hsym := by
        intro a b ha hb
        simp only [List.length_cons, List.length_nil] at ha hb
        interval_cases a <;> interval_cases b <;> decide
      hacyc := by
        have hstep : ∀ a b, dependsOn
            [{ name := "X0", enabled := false, providesSpecs := [1], state := PState.Resolved },
             { name := "B", enabled := true, dependencySpecs := [0], state := PState.Resolved },
             { name := "C", enabled := true, state := PState.Resolved }] a b →
            a = 1 ∧ b = 0 := by
          intro a b hab
          rcases a with _ | _ | _ | a
          · cases hab
          · have hab2 : b ∈ ([0] : List Nat) := hab
            rw [List.mem_singleton] at hab2
            exact ⟨rfl, hab2⟩
          · cases hab
          · cases hab
        intro j _ hj
        have hch : ∀ a b, Relation.TransGen (dependsOn
            [{ name := "X0", enabled := false, providesSpecs := [1], state := PState.Resolved },
             { name := "B", enabled := true, dependencySpecs := [0], state := PState.Resolved },
             { name := "C", enabled := true, state := PState.Resolved }]) a b →
            a = 1 ∧ b = 0 := by
          intro a b h
          induction h with
          | single h1 => exact hstep _ _ h1
          | tail _ h2 ihs => exact ⟨ihs.1, (hstep _ _ h2).2⟩
        obtain ⟨h1, h0⟩ := hch j j hj
        omega }
    [0, 1, 2] 4
    (by
      intro i hi
      simp only [List.mem_cons, List.not_mem_nil, or_false] at hi
      rcases hi with rfl | rfl | rfl <;> decide)
    (by
      intro j hj
      simp only [List.length_cons, List.length_nil] at hj
      simp only [List.mem_cons, List.not_mem_nil, or_false]
      omega)
    (by decide)

end PluginLoader
